import Mathlib

/-!
# Optimistic rollup node (rogercoll/tfm): replay pass, batch commit and sync

A shallow embedding of `aggregator/aggregator.go`, `challenger/challenger.go` and the
transaction path of `optimisticrp/optimisticrp.go`.

* Go values of type `*big.Int` are `Int`, `uint64` is `Nat` with an explicit `% 2^64`,
  `common.Address` and `common.Hash` are `Nat` (only equality and the zero value are used).
* A method with a pointer receiver becomes a function that returns the new node next to its
  result, so that the state left behind by an early `return err` is visible.
* The settlement contract (`ethContract`) is an oracle whose answers may depend on every call
  made so far; the node carries the log of these calls.
-/

namespace Optimisticrp

/-! ## Data model -/

/-- A 20-byte account identifier (`common.Address`). -/
abbrev Address := Nat

/-- A 32-byte hash (`common.Hash`); the zero value `common.Hash{}` is `0`. -/
abbrev Hash := Nat

/-- The zero value `common.Hash{}`. -/
def zeroHash : Hash := 0

/-- Account record stored in the trie: `Balance` is a `*big.Int`, `Nonce` a `uint64`. -/
structure Account where
  Balance : Int
  Nonce : Nat
deriving DecidableEq, Repr

/-- Value transfer between two accounts. -/
structure Transaction where
  From : Address
  To : Address
  Value : Int
  Gas : Int
  Nonce : Nat
deriving DecidableEq, Repr

/-- Deposit observed on chain. -/
structure Deposit where
  From : Address
  Value : Int
deriving DecidableEq, Repr

/-- Withdraw observed on chain. -/
structure Withdraw where
  From : Address
  Value : Int
deriving DecidableEq, Repr

/-- Batch in its Go form. -/
structure Batch where
  PrevStateRoot : Hash
  StateRoot : Hash
  Transactions : List Transaction
deriving DecidableEq, Repr

/-- Go `error` values met in the two nodes. -/
inductive Err where
  | AccountNotFound (addr : Address)
  | InvalidBalance (addr : Address)
  | Codec
  | Gateway (code : Nat)
  | Msg (text : String)
deriving DecidableEq, Repr

/-- Modelled from the spec: the wire form of a batch (type `SolidityBatch`, declared outside
src/). The two roots are raw 32-byte hashes; the transaction list may fail to decode, which is
`none`. -/
structure SolidityBatch where
  PrevStateRoot : Hash
  StateRoot : Hash
  Transactions : Option (List Transaction)
deriving DecidableEq, Repr

/-- Modelled from the spec: `SolidityBatch.ToGolangFormat` (codec, outside src/): decoding
gives back the batch, or a codec error on malformed input. -/
def SolidityBatch.ToGolangFormat (input : SolidityBatch) : Except Err Batch :=
  match input.Transactions with
  | none => .error Err.Codec
  | some txs => .ok { PrevStateRoot := input.PrevStateRoot, StateRoot := input.StateRoot,
                      Transactions := txs }

/-- Modelled from the spec: `Batch.SolidityFormat` (codec, outside src/), the inverse of
`ToGolangFormat`. -/
def Batch.SolidityFormat (b : Batch) : SolidityBatch :=
  { PrevStateRoot := b.PrevStateRoot, StateRoot := b.StateRoot,
    Transactions := some b.Transactions }

/-! ## Account trie -/

/-- Modelled from the spec: the account trie `OptimisticTrie` (outside src/) as the keyed
mapping address to account that it stores. -/
abbrev OptimisticTrie := Address → Option Account

/-- Modelled from the spec: the empty trie. -/
def emptyTrie : OptimisticTrie := fun _ => none

/-- Modelled from the spec: the hashing side of the trie (Merkle-Patricia hashing, outside
src/): the state root and the Merkle proof of an address, both functions of the stored
accounts. They are left as parameters. -/
structure TrieHasher where
  StateRoot : OptimisticTrie → Hash
  NewProve : OptimisticTrie → Address → Except Err (List (List Nat))

/-- Modelled from the spec: `get(address) -> Account | AccountNotFound`. -/
def GetAccount (t : OptimisticTrie) (address : Address) : Except Err Account :=
  match t address with
  | some acc => .ok acc
  | none => .error (Err.AccountNotFound address)

/-- Modelled from the spec: `update(address, Account)` writes the encoded account (the
returned root is `StateRoot` of the result). The balance of a stored account is an unsigned
big integer: an account with a negative balance has no encoding, and nothing is written for
it. -/
def UpdateAccount (t : OptimisticTrie) (address : Address) (acc : Account) : OptimisticTrie :=
  if acc.Balance < 0 then t else Function.update t address (some acc)

/-- Modelled from the spec: `add_funds` of the trie, create-or-credit; a missing account is
created with balance `value` and nonce 0. -/
def AddFunds (t : OptimisticTrie) (account : Address) (value : Int) :
    Except Err OptimisticTrie :=
  match t account with
  | none => .ok (UpdateAccount t account { Balance := value, Nonce := 0 })
  | some acc => .ok (UpdateAccount t account { Balance := acc.Balance + value, Nonce := acc.Nonce })

/-- Modelled from the spec: `remove_funds` of the trie, create-or-debit; a missing account is
created with balance `value` and nonce 0. -/
def RemoveFunds (t : OptimisticTrie) (account : Address) (value : Int) :
    Except Err OptimisticTrie :=
  match t account with
  | none => .ok (UpdateAccount t account { Balance := value, Nonce := 0 })
  | some acc => .ok (UpdateAccount t account { Balance := acc.Balance - value, Nonce := acc.Nonce })

/-- Modelled from the spec: `process_tx` of the trie. Loads the sender (`AccountNotFound`
when absent), loads or creates the recipient, reports `InvalidBalance` when the sender cannot
pay and then leaves the trie unchanged, otherwise debits, credits, increments the sender
nonce and writes both accounts; for a self-transfer the balance is unchanged and the nonce
increments. -/
def ProcessTx (t : OptimisticTrie) (tx : Transaction) : Except Err OptimisticTrie :=
  match t tx.From with
  | none => .error (Err.AccountNotFound tx.From)
  | some fromAcc =>
    let toAcc : Account := (t tx.To).getD { Balance := 0, Nonce := 0 }
    if fromAcc.Balance < tx.Value then .error (Err.InvalidBalance tx.From)
    else if tx.From = tx.To then
      .ok (UpdateAccount t tx.From
        { Balance := fromAcc.Balance, Nonce := (fromAcc.Nonce + 1) % 2 ^ 64 })
    else
      .ok (UpdateAccount
        (UpdateAccount t tx.From
          { Balance := fromAcc.Balance - tx.Value, Nonce := (fromAcc.Nonce + 1) % 2 ^ 64 })
        tx.To { Balance := toAcc.Balance + tx.Value, Nonce := toAcc.Nonce })

/-- Modelled from the spec: `snapshot()`, an isolated copy of the trie. -/
def Copy (t : OptimisticTrie) : Except Err OptimisticTrie := .ok t

/-! ## Settlement contract -/

/-- Options returned by `PrepareTxOptions` (`*bind.TransactOpts`), kept abstract. -/
abbrev TxOpts := Nat

/-- One item of the channel filled by `GetOnChainData`. -/
inductive Event where
  | Batch (input : SolidityBatch)
  | Deposit (input : Deposit)
  | Withdraw (input : Withdraw)
  | Error (input : Err)
  | Other
deriving DecidableEq, Repr

/-- A call made on `ethContract`. -/
inductive Call where
  | GetStateRoot
  | IsStateRootValid (state : Hash)
  | GetOnChainData
  | PrepareTxOptions (value gasLimit gasPrice : Int)
  | NewBatch (batch : SolidityBatch) (txOpts : TxOpts)
  | FraudProof (address : Address) (value : Int) (proof : List (List Nat)) (stateRoot : Hash)
      (lastBatch : SolidityBatch)
deriving DecidableEq, Repr

/-- The contract interface `OptimisticSContract` as the nodes use it. Every answer is a
function of the calls made before it. -/
structure OptimisticSContract where
  GetStateRoot : List Call → Except Err Hash
  IsStateRootValid : List Call → Hash → Except Err Bool
  GetOnChainData : List Call → List Event
  PrepareTxOptions : List Call → Int → Int → Int → Except Err TxOpts
  NewBatch : List Call → SolidityBatch → TxOpts → Except Err Unit

/-- A Go loop `for _, x := range xs` whose body may return an error: the loop stops at the
first error and keeps the state reached so far. -/
def forRange {σ α : Type} (body : σ → α → Option Err × σ) : σ → List α → Option Err × σ
  | s, [] => (none, s)
  | s, x :: xs =>
    match body s x with
    | (some err, s1) => (some err, s1)
    | (none, s1) => forRange body s1 xs

/-- Body of a loop that calls a trie method and returns its error: the trie is written only
when the method succeeds. -/
def onTrie {α : Type} (f : OptimisticTrie → α → Except Err OptimisticTrie)
    (t : OptimisticTrie) (x : α) : Option Err × OptimisticTrie :=
  match f t x with
  | .error err => (some err, t)
  | .ok t1 => (none, t1)

/-- Body of the loops `stateRoot, err = optimisticTrie.ProcessTx(txInBatch)` of the replay
pass: the local `stateRoot` takes the root returned by `ProcessTx`. -/
def processTxBody (hs : TrieHasher) (s : Hash × OptimisticTrie) (txInBatch : Transaction) :
    Option Err × (Hash × OptimisticTrie) :=
  match ProcessTx s.2 txInBatch with
  | .error err => (some err, s)
  | .ok t1 => (none, (hs.StateRoot t1, t1))

/-- The loop `for _, deposit := range pendingDeposits` of the replay pass, which calls
`optimisticTrie.AddFunds`. -/
def depositLoop (t : OptimisticTrie) (pendingDeposits : List Deposit) :
    Option Err × OptimisticTrie :=
  forRange (onTrie fun t (d : Deposit) => AddFunds t d.From d.Value) t pendingDeposits

/-- The loop `for _, withdraw := range ag.pendingWithdraws` of the replay pass, which calls
`optimisticTrie.RemoveFunds`. -/
def withdrawLoop (t : OptimisticTrie) (pendingWithdraws : List Withdraw) :
    Option Err × OptimisticTrie :=
  forRange (onTrie fun t (w : Withdraw) => RemoveFunds t w.From w.Value) t pendingWithdraws

/-- The loop over the copy `tmpTrie` in the Aggregator, which calls `tmpTrie.ProcessTx` and
drops the returned root. -/
def copyLoop (tmpTrie : OptimisticTrie) (txs : List Transaction) : Option Err × OptimisticTrie :=
  forRange (onTrie ProcessTx) tmpTrie txs

/-- The loop over the transactions of a batch on the real trie, which calls
`optimisticTrie.ProcessTx` and keeps the returned root in `stateRoot`. -/
def txLoop (hs : TrieHasher) (stateRoot : Hash) (t : OptimisticTrie) (txs : List Transaction) :
    Option Err × (Hash × OptimisticTrie) :=
  forRange (processTxBody hs) (stateRoot, t) txs

/-! ## Aggregator (`aggregator/aggregator.go`) -/

/-- The constant `MAX_TRANSACTIONS_BATCH`. -/
def MAX_TRANSACTIONS_BATCH : Nat := 502

/-- The fields of `AggregatorNode` that the methods read or write, and the log of the calls
made on `ethContract`. -/
structure AggregatorNode where
  transactions : List Transaction
  pendingDeposits : List Deposit
  pendingWithdraws : List Withdraw
  accountsTrie : OptimisticTrie
  calls : List Call

namespace AggregatorNode

/-- The method `onChainStateRoot`: one `GetStateRoot` call. -/
def onChainStateRoot (gw : OptimisticSContract) (ag : AggregatorNode) :
    Except Err Hash × AggregatorNode :=
  (gw.GetStateRoot ag.calls, { ag with calls := ag.calls ++ [Call.GetStateRoot] })

/-- The method `maliciousProcessTx`, on the trie of the node. -/
def maliciousProcessTx (t : OptimisticTrie) (transaction : Transaction) :
    Except Err OptimisticTrie :=
  match GetAccount t transaction.From with
  | .error err => .error err
  | .ok fromAcc =>
    let toStep : Except Err (Account × OptimisticTrie) :=
      match GetAccount t transaction.To with
      | .ok toAcc => .ok (toAcc, t)
      | .error (Err.AccountNotFound _) =>
        .ok ({ Balance := 0, Nonce := 0 },
             UpdateAccount t transaction.To { Balance := 0, Nonce := 0 })
      | .error err => .error err
    match toStep with
    | .error err => .error err
    | .ok (toAcc, t1) =>
      let fromBalance : Int :=
        if fromAcc.Balance < transaction.Value then fromAcc.Balance + transaction.Value
        else fromAcc.Balance
      let fromAcc1 : Account :=
        { Balance := fromBalance - transaction.Value, Nonce := (fromAcc.Nonce + 1) % 2 ^ 64 }
      let toAcc1 : Account :=
        { Balance := toAcc.Balance + transaction.Value, Nonce := toAcc.Nonce }
      let t2 := UpdateAccount t1 transaction.From fromAcc1
      .ok (UpdateAccount t2 transaction.To toAcc1)

/-- The method `addFunds`, on the trie of the node. -/
def addFunds (t : OptimisticTrie) (account : Address) (value : Int) :
    Except Err OptimisticTrie :=
  match GetAccount t account with
  | .ok acc =>
    .ok (UpdateAccount t account { Balance := acc.Balance + value, Nonce := acc.Nonce })
  | .error (Err.AccountNotFound _) =>
    .ok (UpdateAccount t account { Balance := value, Nonce := 0 })
  | .error err => .error err

/-- The method `removeFunds`, on the trie of the node. -/
def removeFunds (t : OptimisticTrie) (account : Address) (value : Int) :
    Except Err OptimisticTrie :=
  match GetAccount t account with
  | .ok acc =>
    .ok (UpdateAccount t account { Balance := acc.Balance - value, Nonce := acc.Nonce })
  | .error (Err.AccountNotFound _) =>
    .ok (UpdateAccount t account { Balance := value, Nonce := 0 })
  | .error err => .error err

/-- The three loops of `sendBatch` on the trie: pending deposits, pending withdraws, buffered
transactions; the first error stops everything. -/
def applyPending (ag : AggregatorNode) : Option Err × OptimisticTrie :=
  match forRange (onTrie fun t (d : Deposit) => addFunds t d.From d.Value)
      ag.accountsTrie ag.pendingDeposits with
  | (some err, t1) => (some err, t1)
  | (none, t1) =>
    match forRange (onTrie fun t (w : Withdraw) => removeFunds t w.From w.Value)
        t1 ag.pendingWithdraws with
    | (some err, t2) => (some err, t2)
    | (none, t2) => forRange (onTrie maliciousProcessTx) t2 ag.transactions

/-- The method `sendBatch`. The result is the returned error (`none` for `nil`). -/
def sendBatch (gw : OptimisticSContract) (hs : TrieHasher) (ag : AggregatorNode) :
    Option Err × AggregatorNode :=
  match ag.onChainStateRoot gw with
  | (.error err, ag1) => (some err, ag1)
  | (.ok prevStateRoot, ag1) =>
    match applyPending ag1 with
    | (some err, t3) => (some err, { ag1 with accountsTrie := t3 })
    | (none, t3) =>
      let ag2 : AggregatorNode := { ag1 with accountsTrie := t3 }
      let b : Batch :=
        { PrevStateRoot := prevStateRoot, StateRoot := hs.StateRoot ag2.accountsTrie,
          Transactions := ag2.transactions }
      let ag3 : AggregatorNode :=
        { ag2 with calls := ag2.calls ++ [Call.PrepareTxOptions 0 2 2] }
      match gw.PrepareTxOptions ag2.calls 0 2 2 with
      | .error err => (some err, ag3)
      | .ok txOpts =>
        let ag4 : AggregatorNode :=
          { ag3 with calls := ag3.calls ++ [Call.NewBatch b.SolidityFormat txOpts] }
        match gw.NewBatch ag3.calls b.SolidityFormat txOpts with
        | .error err => (some err, ag4)
        | .ok _ => (none, { ag4 with transactions := [] })

/-- The locals `stateRoot` and `pendingDeposits` of `computeAccountsTrie`. -/
structure ReplayLocals where
  stateRoot : Hash
  pendingDeposits : List Deposit

/-- The `case optimisticrp.SolidityBatch` arm of the loop of `computeAccountsTrie`: an error
is the early `return stateRoot, nil, err`, a value is the locals after the arm. -/
def replayBatch (gw : OptimisticSContract) (hs : TrieHasher) (ag : AggregatorNode)
    (lc : ReplayLocals) (input : SolidityBatch) : Except Err ReplayLocals × AggregatorNode :=
  match input.ToGolangFormat with
  | .error err => (.error err, ag)
  | .ok batch =>
    let ag1 : AggregatorNode :=
      { ag with calls := ag.calls ++ [Call.IsStateRootValid batch.StateRoot] }
    match gw.IsStateRootValid ag.calls batch.StateRoot with
    | .error err => (.error err, ag1)
    | .ok isValid =>
      let ag2 : AggregatorNode := { ag1 with calls := ag1.calls ++ [Call.GetStateRoot] }
      match gw.GetStateRoot ag1.calls with
      | .error err => (.error err, ag2)
      | .ok onChainStateRoot =>
        match depositLoop ag2.accountsTrie lc.pendingDeposits with
        | (some err, t1) => (.error err, { ag2 with accountsTrie := t1 })
        | (none, t1) =>
          match withdrawLoop t1 ag2.pendingWithdraws with
          | (some err, t2) => (.error err, { ag2 with accountsTrie := t2 })
          | (none, t2) =>
            let ag3 : AggregatorNode := { ag2 with accountsTrie := t2, pendingWithdraws := [] }
            if isValid then
              match txLoop hs lc.stateRoot t2 batch.Transactions with
              | (some err, s) => (.error err, { ag3 with accountsTrie := s.2 })
              | (none, s) =>
                (.ok { stateRoot := s.1, pendingDeposits := [] }, { ag3 with accountsTrie := s.2 })
            else if input.StateRoot = onChainStateRoot then
              match Copy t2 with
              | .error err => (.error err, ag3)
              | .ok tmpTrie =>
                match copyLoop tmpTrie batch.Transactions with
                | (some err, _) => (.error err, ag3)
                | (none, _) =>
                  match txLoop hs lc.stateRoot t2 batch.Transactions with
                  | (some err, s) => (.error err, { ag3 with accountsTrie := s.2 })
                  | (none, s) =>
                    (.ok { stateRoot := s.1, pendingDeposits := [] },
                     { ag3 with accountsTrie := s.2 })
            else (.ok { stateRoot := lc.stateRoot, pendingDeposits := [] }, ag3)

/-- The loop `for methodData := range onChainData` of `computeAccountsTrie` over the items
sent on the channel, with the final `return stateRoot, pendingDeposits, nil`. -/
def replayLoop (gw : OptimisticSContract) (hs : TrieHasher) :
    AggregatorNode → ReplayLocals → List Event → Except Err (Hash × List Deposit) × AggregatorNode
  | ag, lc, [] => (.ok (lc.stateRoot, lc.pendingDeposits), ag)
  | ag, lc, Event.Batch input :: rest =>
    match replayBatch gw hs ag lc input with
    | (.error err, ag1) => (.error err, ag1)
    | (.ok lc1, ag1) => replayLoop gw hs ag1 lc1 rest
  | ag, lc, Event.Deposit input :: rest =>
    replayLoop gw hs ag { lc with pendingDeposits := lc.pendingDeposits ++ [input] } rest
  | ag, lc, Event.Withdraw input :: rest =>
    replayLoop gw hs { ag with pendingWithdraws := ag.pendingWithdraws ++ [input] } lc rest
  | ag, _, Event.Error input :: _ => (.error input, ag)
  | ag, _, Event.Other :: _ =>
    (.error (Err.Msg "There was an error while fetching onChain data"), ag)

/-- The method `computeAccountsTrie` of the Aggregator: one `GetOnChainData` call, then the
loop over the items it sends, starting from `stateRoot = common.Hash{}` and an empty
`pendingDeposits`. -/
def computeAccountsTrie (gw : OptimisticSContract) (hs : TrieHasher) (ag : AggregatorNode) :
    Except Err (Hash × List Deposit) × AggregatorNode :=
  replayLoop gw hs { ag with calls := ag.calls ++ [Call.GetOnChainData] }
    { stateRoot := zeroHash, pendingDeposits := [] } (gw.GetOnChainData ag.calls)

/-- The method `Synced` of the Aggregator; the result is the returned pair `(bool, error)`. -/
def Synced (gw : OptimisticSContract) (hs : TrieHasher) (ag : AggregatorNode) :
    (Bool × Option Err) × AggregatorNode :=
  match ag.onChainStateRoot gw with
  | (.error err, ag1) => ((false, some err), ag1)
  | (.ok onChainStateRoot, ag1) =>
    if onChainStateRoot = hs.StateRoot ag1.accountsTrie then ((true, none), ag1)
    else
      match computeAccountsTrie gw hs ag1 with
      | (.error err, ag2) => ((false, some err), ag2)
      | (.ok (stateRoot, pendingDeposits), ag2) =>
        let ag3 : AggregatorNode := { ag2 with pendingDeposits := pendingDeposits }
        if stateRoot ≠ onChainStateRoot then
          ((false, some (Err.Msg "Aggregator was not able to compute a valid StateRoot")), ag3)
        else ((true, none), ag3)

/-- How a call of `ReceiveTransaction` ends: it returns an error value (`none` for `nil`), or
the process exits in `log.Fatal(err)`. -/
inductive Outcome where
  | returned (err : Option Err)
  | fatal (err : Option Err)
deriving DecidableEq, Repr

/-- The method `ReceiveTransaction`. -/
def ReceiveTransaction (gw : OptimisticSContract) (hs : TrieHasher) (ag : AggregatorNode)
    (tx : Transaction) : Outcome × AggregatorNode :=
  let ag1 : AggregatorNode := { ag with transactions := ag.transactions ++ [tx] }
  if ag1.transactions.length = MAX_TRANSACTIONS_BATCH then
    match Synced gw hs ag1 with
    | ((true, _), ag2) =>
      match sendBatch gw hs ag2 with
      | (some err, ag3) => (Outcome.returned (some err), ag3)
      | (none, ag3) => (Outcome.returned none, ag3)
    | ((false, err), ag2) => (Outcome.fatal err, ag2)
  else (Outcome.returned none, ag1)

end AggregatorNode

/-! ## Challenger (`challenger/challenger.go`) -/

/-- The fields of `ChallengerNode` that the methods read or write, and the log of the calls
made on `ethContract`. -/
structure ChallengerNode where
  accountsTrie : OptimisticTrie
  calls : List Call

namespace ChallengerNode

/-- The method `sendFraudProof`: it asks the trie of the node for the proof and prints it. -/
def sendFraudProof (hs : TrieHasher) (v : ChallengerNode) (acc : Address) : Option Err :=
  match hs.NewProve v.accountsTrie acc with
  | .error err => some err
  | .ok _ => none

/-- What an arm of the loop of `computeAccountsTrie` does next: go on with new locals, or
return from the method. -/
inductive Flow where
  | next (lc : AggregatorNode.ReplayLocals)
  | ret (result : Except Err Hash)

/-- The loop over the copy `tmpTrie` in the Challenger: `none` when every transaction went
through, otherwise the value returned from the method. -/
def speculate (hs : TrieHasher) (v : ChallengerNode) (stateRoot : Hash) :
    OptimisticTrie → List Transaction → Option (Except Err Hash)
  | _, [] => none
  | tmpTrie, txInBatch :: rest =>
    match ProcessTx tmpTrie txInBatch with
    | .ok tmp1 => speculate hs v stateRoot tmp1 rest
    | .error (Err.InvalidBalance addr) =>
      match sendFraudProof hs v addr with
      | some err => some (.error err)
      | none => some (.ok stateRoot)
    | .error err => some (.error err)

/-- The `case optimisticrp.SolidityBatch` arm of the loop of the Challenger. -/
def replayBatch (gw : OptimisticSContract) (hs : TrieHasher) (v : ChallengerNode)
    (lc : AggregatorNode.ReplayLocals) (input : SolidityBatch) : Flow × ChallengerNode :=
  match input.ToGolangFormat with
  | .error err => (Flow.ret (.error err), v)
  | .ok batch =>
    let v1 : ChallengerNode :=
      { v with calls := v.calls ++ [Call.IsStateRootValid batch.StateRoot] }
    match gw.IsStateRootValid v.calls batch.StateRoot with
    | .error err => (Flow.ret (.error err), v1)
    | .ok isValid =>
      let v2 : ChallengerNode := { v1 with calls := v1.calls ++ [Call.GetStateRoot] }
      match gw.GetStateRoot v1.calls with
      | .error err => (Flow.ret (.error err), v2)
      | .ok onChainStateRoot =>
        match depositLoop v2.accountsTrie lc.pendingDeposits with
        | (some err, t1) => (Flow.ret (.error err), { v2 with accountsTrie := t1 })
        | (none, t1) =>
          let v3 : ChallengerNode := { v2 with accountsTrie := t1 }
          if isValid then
            match txLoop hs lc.stateRoot t1 batch.Transactions with
            | (some err, s) => (Flow.ret (.error err), { v3 with accountsTrie := s.2 })
            | (none, s) =>
              (Flow.next { stateRoot := s.1, pendingDeposits := [] },
               { v3 with accountsTrie := s.2 })
          else if input.StateRoot = onChainStateRoot then
            match Copy t1 with
            | .error err => (Flow.ret (.error err), v3)
            | .ok tmpTrie =>
              match speculate hs v3 lc.stateRoot tmpTrie batch.Transactions with
              | some result => (Flow.ret result, v3)
              | none =>
                match txLoop hs lc.stateRoot t1 batch.Transactions with
                | (some err, s) => (Flow.ret (.error err), { v3 with accountsTrie := s.2 })
                | (none, s) =>
                  (Flow.next { stateRoot := s.1, pendingDeposits := [] },
                   { v3 with accountsTrie := s.2 })
          else (Flow.next { stateRoot := lc.stateRoot, pendingDeposits := [] }, v3)

/-- The loop `for methodData := range onChainData` of the Challenger; there is no arm for
`optimisticrp.Withdraw`, which falls to `default`. -/
def replayLoop (gw : OptimisticSContract) (hs : TrieHasher) :
    ChallengerNode → AggregatorNode.ReplayLocals → List Event → Except Err Hash × ChallengerNode
  | v, lc, [] => (.ok lc.stateRoot, v)
  | v, lc, Event.Batch input :: rest =>
    match replayBatch gw hs v lc input with
    | (Flow.ret result, v1) => (result, v1)
    | (Flow.next lc1, v1) => replayLoop gw hs v1 lc1 rest
  | v, lc, Event.Deposit input :: rest =>
    replayLoop gw hs v { lc with pendingDeposits := lc.pendingDeposits ++ [input] } rest
  | v, _, Event.Error input :: _ => (.error input, v)
  | v, _, Event.Withdraw _ :: _ =>
    (.error (Err.Msg "There was an error while fetching onChain data"), v)
  | v, _, Event.Other :: _ =>
    (.error (Err.Msg "There was an error while fetching onChain data"), v)

/-- The method `computeAccountsTrie` of the Challenger. -/
def computeAccountsTrie (gw : OptimisticSContract) (hs : TrieHasher) (v : ChallengerNode) :
    Except Err Hash × ChallengerNode :=
  replayLoop gw hs { v with calls := v.calls ++ [Call.GetOnChainData] }
    { stateRoot := zeroHash, pendingDeposits := [] } (gw.GetOnChainData v.calls)

/-- The method `Synced` of the Challenger. -/
def Synced (gw : OptimisticSContract) (hs : TrieHasher) (v : ChallengerNode) :
    (Bool × Option Err) × ChallengerNode :=
  let v1 : ChallengerNode := { v with calls := v.calls ++ [Call.GetStateRoot] }
  match gw.GetStateRoot v.calls with
  | .error err => ((false, some err), v1)
  | .ok onChainStateRoot =>
    if onChainStateRoot = hs.StateRoot v1.accountsTrie then ((true, none), v1)
    else
      match computeAccountsTrie gw hs v1 with
      | (.error err, v2) => ((false, some err), v2)
      | (.ok stateRoot, v2) =>
        if stateRoot ≠ onChainStateRoot then
          ((false, some (Err.Msg "Aggregator was not able to compute a valid StateRoot")), v2)
        else ((true, none), v2)

end ChallengerNode

/-- The trie after the two drain loops of a Batch arm: pending deposits first, then pending
withdraws. -/
def drained (t : OptimisticTrie) (ds : List Deposit) (ws : List Withdraw) : OptimisticTrie :=
  (withdrawLoop (depositLoop t ds).2 ws).2

/-- The Aggregator after the two contract calls and the two drain loops of a Batch arm. -/
def AggregatorNode.afterDrain (ag : AggregatorNode) (lc : AggregatorNode.ReplayLocals)
    (batch : Batch) : AggregatorNode :=
  { ag with
    calls := ag.calls ++ [Call.IsStateRootValid batch.StateRoot] ++ [Call.GetStateRoot],
    accountsTrie := drained ag.accountsTrie lc.pendingDeposits ag.pendingWithdraws,
    pendingWithdraws := [] }

/-- The Challenger after the two contract calls and the deposit loop of a Batch arm. -/
def ChallengerNode.afterDrain (v : ChallengerNode) (lc : AggregatorNode.ReplayLocals)
    (batch : Batch) : ChallengerNode :=
  { v with
    calls := v.calls ++ [Call.IsStateRootValid batch.StateRoot] ++ [Call.GetStateRoot],
    accountsTrie := (depositLoop v.accountsTrie lc.pendingDeposits).2 }

/-- Successive `ReceiveTransaction` calls, one per transaction, with the outcome of each; a
call that ends in `log.Fatal` is the last one. -/
def AggregatorNode.receiveAll (gw : OptimisticSContract) (hs : TrieHasher) :
    AggregatorNode → List Transaction → List AggregatorNode.Outcome × AggregatorNode
  | ag, [] => ([], ag)
  | ag, tx :: rest =>
    match AggregatorNode.ReceiveTransaction gw hs ag tx with
    | (AggregatorNode.Outcome.fatal err, ag1) => ([AggregatorNode.Outcome.fatal err], ag1)
    | (AggregatorNode.Outcome.returned err, ag1) =>
      (AggregatorNode.Outcome.returned err :: (receiveAll gw hs ag1 rest).1,
       (receiveAll gw hs ag1 rest).2)

/-- Every call on the contract succeeds, whatever the history. -/
def OptimisticSContract.alwaysSucceeds (gw : OptimisticSContract) : Prop :=
  (∀ log, ∃ h, gw.GetStateRoot log = .ok h) ∧
  (∀ log state, ∃ b, gw.IsStateRootValid log state = .ok b) ∧
  (∀ log, ∀ e ∈ gw.GetOnChainData log, ∀ err, e ≠ Event.Error err) ∧
  (∀ log value gasLimit gasPrice, ∃ o, gw.PrepareTxOptions log value gasLimit gasPrice = .ok o) ∧
  (∀ log b o, gw.NewBatch log b o = .ok ())

/-! ## Fixtures -/

/-- A contract whose answers do not depend on the history: every call succeeds, the channel
carries `events`, every state root is reported `valid`, the current root is `head`. -/
def scriptedContract (events : List Event) (valid : Bool) (head : Hash) : OptimisticSContract :=
  { GetStateRoot := fun _ => .ok head
    IsStateRootValid := fun _ _ => .ok valid
    GetOnChainData := fun _ => events
    PrepareTxOptions := fun _ _ _ _ => .ok 0
    NewBatch := fun _ _ _ => .ok () }

/-- A hasher for the fixtures: the root only looks at the balance stored at address 1 and is
never the zero hash; every proof is empty. -/
def sampleHasher : TrieHasher :=
  { StateRoot := fun t => match t 1 with
      | some acc => acc.Balance.toNat + 2
      | none => 1
    NewProve := fun _ _ => .ok [] }

/-- An Aggregator that has just been built by `New` on a fresh trie. -/
def freshAggregator : AggregatorNode :=
  { transactions := [], pendingDeposits := [], pendingWithdraws := [],
    accountsTrie := emptyTrie, calls := [] }

/-- A Challenger that has just been built by `New` on a fresh trie. -/
def freshChallenger : ChallengerNode :=
  { accountsTrie := emptyTrie, calls := [] }

/-- The transfer of `value` from `src` to `dst` with zero gas and nonce. -/
def transfer (src dst : Address) (value : Int) : Transaction :=
  { From := src, To := dst, Value := value, Gas := 0, Nonce := 0 }

/-- The stream of the deposit-before-batch scenario, with A = 1 and B = 2. -/
def precedenceStream : List Event :=
  [Event.Deposit { From := 1, Value := 50 }, Event.Deposit { From := 2, Value := 20 },
   Event.Batch { PrevStateRoot := 0, StateRoot := 9, Transactions := some [transfer 1 2 10] }]

/-- The stream of the deposit-then-batch scenario, with A = 1: one deposit of 100, then a
batch without transactions. -/
def depositThenBatch : List Event :=
  [Event.Deposit { From := 1, Value := 100 },
   Event.Batch { PrevStateRoot := 0, StateRoot := 9, Transactions := some [] }]

/-- A stream whose head batch overdraws A = 1: a deposit of 10, then a batch that moves 5
and then 50 from A to B = 2. -/
def fraudStream : List Event :=
  [Event.Deposit { From := 1, Value := 10 },
   Event.Batch { PrevStateRoot := 0, StateRoot := 9,
                 Transactions := some [transfer 1 2 5, transfer 1 2 50] }]

/-- Whether a call is a `FraudProof` call. -/
def Call.isFraudProof : Call → Bool
  | Call.FraudProof _ _ _ _ _ => true
  | _ => false

/-- Whether a call is a `NewBatch` call. -/
def Call.isNewBatch : Call → Bool
  | Call.NewBatch _ _ => true
  | _ => false

/-- Whether a call is a `GetOnChainData` call. -/
def Call.isGetOnChainData : Call → Bool
  | Call.GetOnChainData => true
  | _ => false

/-- Whether an item of the stream is a Batch event. -/
def Event.isBatch : Event → Bool
  | Event.Batch _ => true
  | _ => false

/-- The Deposit events of a stream, in stream order. -/
def depositsOf : List Event → List Deposit
  | [] => []
  | Event.Deposit d :: rest => d :: depositsOf rest
  | _ :: rest => depositsOf rest

/-- A stream with a deposit on each side of its only batch. -/
def residualStream : List Event :=
  [Event.Deposit { From := 1, Value := 50 },
   Event.Batch { PrevStateRoot := 0, StateRoot := 9, Transactions := some [] },
   Event.Deposit { From := 2, Value := 7 }]

/-- Whether a call is one of the two calls a Batch arm makes: `IsStateRootValid` or
`GetStateRoot`. -/
def Call.isBatchArmCall : Call → Bool
  | Call.GetStateRoot => true
  | Call.IsStateRootValid _ => true
  | _ => false

/-- An Aggregator with one pending deposit of 50 to A = 1, one pending withdraw of 5 from A
and one buffered transfer of 10 from A to B = 2. -/
def loadedAggregator : AggregatorNode :=
  { transactions := [transfer 1 2 10], pendingDeposits := [{ From := 1, Value := 50 }],
    pendingWithdraws := [{ From := 1, Value := 5 }], accountsTrie := emptyTrie, calls := [] }

/-- The buffer of the threshold scenario when the sender has no account: 502 transfers of 1
from A = 1 to B = 2. -/
def orphanTransfers : List Transaction := List.replicate 502 (transfer 1 2 1)

/-- A contract that accepts every call and whose current root is the root that `sampleHasher`
gives to the empty trie. -/
def idleContract : OptimisticSContract := scriptedContract [] true 1

/-- An Aggregator on a trie in which A = 1 holds 1000, with empty queues and buffer. -/
def fundedAggregator : AggregatorNode :=
  { transactions := [], pendingDeposits := [], pendingWithdraws := [],
    accountsTrie := UpdateAccount emptyTrie 1 { Balance := 1000, Nonce := 0 }, calls := [] }

/-- A contract that accepts every call and whose current root is the root that `sampleHasher`
gives to the trie of `fundedAggregator`. -/
def fundedContract : OptimisticSContract := scriptedContract [] true 1002

/-- The Withdraw events of a stream, in stream order. -/
def withdrawsOf : List Event → List Withdraw
  | [] => []
  | Event.Withdraw w :: rest => w :: withdrawsOf rest
  | _ :: rest => withdrawsOf rest

/-- Whether an item of the stream is a Deposit or a Withdraw event. -/
def Event.isFunds : Event → Bool
  | Event.Deposit _ => true
  | Event.Withdraw _ => true
  | _ => false

/-! ## Oprollups (`optimisticrp/optimisticrp.go`) -/

/-- The fields of `Oprollups` that `NewOptimisticTx` reads or writes. `AccountsTrie` is the
go-ethereum trie from address bytes to the RLP encoding of the account, kept as the mapping
it stores. -/
structure Oprollups where
  AccountsTrie : OptimisticTrie
  StateRoot : Hash
  NewBatch : Batch

namespace Oprollups

/-- The method `GetAccount`: the bytes stored at the address are decoded; for an address
without entry the trie gives no bytes and `rlp.DecodeBytes` returns an error. -/
def GetAccount (opr : Oprollups) (address : Address) : Except Err Account :=
  match opr.AccountsTrie address with
  | some acc => .ok acc
  | none => .error Err.Codec

/-- The method `UpdateAccount`: `rlp.EncodeToBytes` returns an error on a negative
`*big.Int`, and then nothing is written. -/
def UpdateAccount (opr : Oprollups) (address : Address) (acc : Account) :
    Option Err × Oprollups :=
  if acc.Balance < 0 then (some Err.Codec, opr)
  else (none, { opr with AccountsTrie := Function.update opr.AccountsTrie address (some acc) })

/-- The method `NewOptimisticTx(to, from, value, gas)`; the parameters `to` and `from` are
`toAddr` and `fromAddr`. The error of the second `UpdateAccount` is overwritten by the final
`return nil`. -/
def NewOptimisticTx (hs : TrieHasher) (opr : Oprollups) (toAddr fromAddr : Address)
    (value gas : Int) : Option Err × Oprollups :=
  match opr.GetAccount fromAddr with
  | .error err => (some err, opr)
  | .ok fromAcc =>
    match opr.GetAccount toAddr with
    | .error err => (some err, opr)
    | .ok toAcc =>
      let fromNonce : Nat := (fromAcc.Nonce + 1) % 2 ^ 64
      let tx : Transaction :=
        { From := fromAddr, To := toAddr, Value := value, Gas := gas, Nonce := fromNonce }
      let fromAcc1 : Account := { Balance := fromAcc.Balance - value, Nonce := fromNonce }
      let toAcc1 : Account := { Balance := toAcc.Balance + value, Nonce := toAcc.Nonce }
      match opr.UpdateAccount fromAddr fromAcc1 with
      | (some err, opr1) => (some err, opr1)
      | (none, opr1) =>
        let opr2 := (opr1.UpdateAccount toAddr toAcc1).2
        (none, { opr2 with
          StateRoot := hs.StateRoot opr2.AccountsTrie,
          NewBatch := { opr2.NewBatch with
            StateRoot := hs.StateRoot opr2.AccountsTrie,
            Transactions := opr2.NewBatch.Transactions ++ [tx] } })

end Oprollups

/-! ## More fixtures -/

/-- A trie in which only A = 1 has an account, with balance 100 and nonce 0. -/
def singleAccountTrie : OptimisticTrie :=
  UpdateAccount emptyTrie 1 { Balance := 100, Nonce := 0 }

/-- A trie in which only A = 1 has an account, with balance 100 and the largest `uint64`
nonce. -/
def lastNonceTrie : OptimisticTrie :=
  UpdateAccount emptyTrie 1 { Balance := 100, Nonce := 2 ^ 64 - 1 }

/-- A trie in which only A = 1 has an account, with balance 10 and nonce 0. -/
def smallAccountTrie : OptimisticTrie :=
  UpdateAccount emptyTrie 1 { Balance := 10, Nonce := 0 }

/-- An `Oprollups` whose trie is `singleAccountTrie`, with an empty batch. -/
def singleAccountRollup : Oprollups :=
  { AccountsTrie := singleAccountTrie, StateRoot := 102,
    NewBatch := { PrevStateRoot := 0, StateRoot := 0, Transactions := [] } }

/-- The trie left by a successful call, `emptyTrie` after an error. -/
def resultTrie (r : Except Err OptimisticTrie) : OptimisticTrie :=
  match r with
  | .ok t => t
  | .error _ => emptyTrie

/-- Every account of the trie has a balance that is not negative. -/
def balancesNonneg (t : OptimisticTrie) : Prop :=
  ∀ a acc, t a = some acc → 0 ≤ acc.Balance

/-- Specification side of the replay of a batch: its transactions applied one after the
other, in order, with `ProcessTx`; the first error is the result, and a trie is returned only
when every transaction went through. -/
def replayInOrder : OptimisticTrie → List Transaction → Except Err OptimisticTrie
  | t, [] => .ok t
  | t, tx :: rest =>
    match ProcessTx t tx with
    | .error err => .error err
    | .ok t1 => replayInOrder t1 rest

/-- The locals of a replay pass that has seen one deposit of `value` to A = 1 since the last
batch. -/
def localsWithDeposit (value : Int) : AggregatorNode.ReplayLocals :=
  { stateRoot := zeroHash, pendingDeposits := [{ From := 1, Value := value }] }

/-- A batch event with state root 9 that moves 10 from A = 1 to B = 2. -/
def transferBatch : SolidityBatch :=
  { PrevStateRoot := 0, StateRoot := 9, Transactions := some [transfer 1 2 10] }

/-- A batch event with state root 9 that moves 5 and then 50 from A = 1 to B = 2. -/
def overdrawBatch : SolidityBatch :=
  { PrevStateRoot := 0, StateRoot := 9, Transactions := some [transfer 1 2 5, transfer 1 2 50] }

/-! ## Loop lemmas -/

theorem forRange_fst_none {σ α : Type} (body : σ → α → Option Err × σ)
    (hbody : ∀ s x, (body s x).1 = none) (s : σ) (xs : List α) :
    (forRange body s xs).1 = none := by
  induction xs generalizing s with
  | nil => rfl
  | cons x xs ih =>
    have hx := hbody s x
    rcases hb : body s x with ⟨e, s1⟩
    rw [hb] at hx
    simp only at hx
    subst hx
    simp only [forRange, hb]
    exact ih s1

theorem depositLoop_fst (t : OptimisticTrie) (ds : List Deposit) :
    (depositLoop t ds).1 = none := by
  apply forRange_fst_none
  intro s d
  cases h : s d.From <;> simp [onTrie, AddFunds, h]

theorem withdrawLoop_fst (t : OptimisticTrie) (ws : List Withdraw) :
    (withdrawLoop t ws).1 = none := by
  apply forRange_fst_none
  intro s w
  cases h : s w.From <;> simp [onTrie, RemoveFunds, h]

theorem ChallengerNode.loop_deposits (gw : OptimisticSContract) (hs : TrieHasher)
    (v : ChallengerNode) (lc : AggregatorNode.ReplayLocals) (ds : List Deposit)
    (rest : List Event) :
    ChallengerNode.replayLoop gw hs v lc (ds.map Event.Deposit ++ rest) =
      ChallengerNode.replayLoop gw hs v
        { lc with pendingDeposits := lc.pendingDeposits ++ ds } rest := by
  induction ds generalizing lc with
  | nil => simp
  | cons d ds ih => simp [ChallengerNode.replayLoop, ih, List.append_assoc]

theorem depositLoop_eq (t : OptimisticTrie) (ds : List Deposit) :
    depositLoop t ds = (none, (depositLoop t ds).2) :=
  Prod.ext (depositLoop_fst t ds) rfl

theorem withdrawLoop_eq (t : OptimisticTrie) (ws : List Withdraw) :
    withdrawLoop t ws = (none, (withdrawLoop t ws).2) :=
  Prod.ext (withdrawLoop_fst t ws) rfl

/-- The loop on the real trie and the loop on a copy run the same `ProcessTx` calls: same
error, same trie. -/
theorem txLoop_copyLoop (hs : TrieHasher) (sr : Hash) (t : OptimisticTrie)
    (txs : List Transaction) :
    (txLoop hs sr t txs).1 = (copyLoop t txs).1 ∧ (txLoop hs sr t txs).2.2 = (copyLoop t txs).2 := by
  induction txs generalizing sr t with
  | nil => exact ⟨rfl, rfl⟩
  | cons tx txs ih =>
    unfold txLoop copyLoop at ih ⊢
    cases h : ProcessTx t tx with
    | error e => simp [forRange, processTxBody, onTrie, h]
    | ok t1 => simpa [forRange, processTxBody, onTrie, h] using ih (hs.StateRoot t1) t1

/-- A replay in order that goes through is what the loop over the copy computes. -/
theorem copyLoop_of_replayInOrder_ok (t : OptimisticTrie) (txs : List Transaction)
    (t1 : OptimisticTrie) (h : replayInOrder t txs = .ok t1) : copyLoop t txs = (none, t1) := by
  induction txs generalizing t with
  | nil =>
    simp only [replayInOrder, Except.ok.injEq] at h
    subst h
    rfl
  | cons tx txs ih =>
    unfold copyLoop at ih ⊢
    cases hp : ProcessTx t tx with
    | error e => simp [replayInOrder, hp] at h
    | ok t2 =>
      simp only [replayInOrder, hp] at h
      simpa [forRange, onTrie, hp] using ih t2 h

/-- A replay in order that stops with an error stops the loop over the copy with it. -/
theorem copyLoop_of_replayInOrder_error (t : OptimisticTrie) (txs : List Transaction)
    (err : Err) (h : replayInOrder t txs = .error err) : (copyLoop t txs).1 = some err := by
  induction txs generalizing t with
  | nil => simp [replayInOrder] at h
  | cons tx txs ih =>
    unfold copyLoop at ih ⊢
    cases hp : ProcessTx t tx with
    | error e =>
      simp only [replayInOrder, hp, Except.error.injEq] at h
      subst h
      simp [forRange, onTrie, hp]
    | ok t2 =>
      simp only [replayInOrder, hp] at h
      simpa [forRange, onTrie, hp] using ih t2 h

/-- The Batch arm of the Aggregator on a batch that is applied: reported valid, or the head
batch whose replay on the copy went through. -/
theorem AggregatorNode.replayBatch_applied (gw : OptimisticSContract) (hs : TrieHasher)
    (ag : AggregatorNode) (lc : AggregatorNode.ReplayLocals) (input : SolidityBatch)
    (batch : Batch) (isValid : Bool) (head : Hash)
    (hdec : input.ToGolangFormat = .ok batch)
    (hvalid : gw.IsStateRootValid ag.calls batch.StateRoot = .ok isValid)
    (hhead : gw.GetStateRoot (ag.calls ++ [Call.IsStateRootValid batch.StateRoot]) = .ok head)
    (happ : isValid = true ∨ (input.StateRoot = head ∧
      (copyLoop (drained ag.accountsTrie lc.pendingDeposits ag.pendingWithdraws)
        batch.Transactions).1 = none)) :
    AggregatorNode.replayBatch gw hs ag lc input =
      match txLoop hs lc.stateRoot (drained ag.accountsTrie lc.pendingDeposits ag.pendingWithdraws)
          batch.Transactions with
      | (some err, s) => (.error err, { ag.afterDrain lc batch with accountsTrie := s.2 })
      | (none, s) =>
        (.ok { stateRoot := s.1, pendingDeposits := [] },
         { ag.afterDrain lc batch with accountsTrie := s.2 }) := by
  unfold AggregatorNode.replayBatch
  simp only [hdec, hvalid, hhead, drained, AggregatorNode.afterDrain] at happ ⊢
  rw [depositLoop_eq ag.accountsTrie lc.pendingDeposits]
  simp only
  rw [withdrawLoop_eq _ ag.pendingWithdraws]
  simp only [Copy]
  cases isValid with
  | true => simp
  | false =>
    simp only [Bool.false_eq_true, false_or] at happ
    obtain ⟨hh, hc⟩ := happ
    simp only [Bool.false_eq_true, if_false, hh, if_true]
    rcases hc2 : copyLoop (withdrawLoop (depositLoop ag.accountsTrie lc.pendingDeposits).2
      ag.pendingWithdraws).2 batch.Transactions with ⟨e, tc⟩
    rw [hc2] at hc
    simp only at hc
    subst hc
    simp

/-- The Batch arm of the Aggregator on the head batch, not yet valid, whose replay on the
copy fails: the error is returned and the real trie stays as drained. -/
theorem AggregatorNode.replayBatch_rejected (gw : OptimisticSContract) (hs : TrieHasher)
    (ag : AggregatorNode) (lc : AggregatorNode.ReplayLocals) (input : SolidityBatch)
    (batch : Batch) (head : Hash) (err : Err)
    (hdec : input.ToGolangFormat = .ok batch)
    (hvalid : gw.IsStateRootValid ag.calls batch.StateRoot = .ok false)
    (hhead : gw.GetStateRoot (ag.calls ++ [Call.IsStateRootValid batch.StateRoot]) = .ok head)
    (hh : input.StateRoot = head)
    (hc : (copyLoop (drained ag.accountsTrie lc.pendingDeposits ag.pendingWithdraws)
        batch.Transactions).1 = some err) :
    AggregatorNode.replayBatch gw hs ag lc input = (.error err, ag.afterDrain lc batch) := by
  unfold AggregatorNode.replayBatch
  simp only [hdec, hvalid, hhead, drained, AggregatorNode.afterDrain] at hc ⊢
  rw [depositLoop_eq ag.accountsTrie lc.pendingDeposits]
  simp only
  rw [withdrawLoop_eq _ ag.pendingWithdraws]
  simp only [Copy, Bool.false_eq_true, if_false, hh, if_true]
  rcases hc2 : copyLoop (withdrawLoop (depositLoop ag.accountsTrie lc.pendingDeposits).2
    ag.pendingWithdraws).2 batch.Transactions with ⟨e, tc⟩
  rw [hc2] at hc
  simp only at hc
  subst hc
  simp

/-- The Batch arm of the Aggregator on a batch that is neither valid nor the head: skipped. -/
theorem AggregatorNode.replayBatch_skipped (gw : OptimisticSContract) (hs : TrieHasher)
    (ag : AggregatorNode) (lc : AggregatorNode.ReplayLocals) (input : SolidityBatch)
    (batch : Batch) (head : Hash)
    (hdec : input.ToGolangFormat = .ok batch)
    (hvalid : gw.IsStateRootValid ag.calls batch.StateRoot = .ok false)
    (hhead : gw.GetStateRoot (ag.calls ++ [Call.IsStateRootValid batch.StateRoot]) = .ok head)
    (hh : input.StateRoot ≠ head) :
    AggregatorNode.replayBatch gw hs ag lc input =
      (.ok { stateRoot := lc.stateRoot, pendingDeposits := [] }, ag.afterDrain lc batch) := by
  unfold AggregatorNode.replayBatch
  simp only [hdec, hvalid, hhead, drained, AggregatorNode.afterDrain]
  rw [depositLoop_eq ag.accountsTrie lc.pendingDeposits]
  simp only
  rw [withdrawLoop_eq _ ag.pendingWithdraws]
  simp [hh]

/-- The loop of the Challenger over the copy, read off the plain loop over the copy. -/
theorem ChallengerNode.speculate_eq (hs : TrieHasher) (v : ChallengerNode) (sr : Hash)
    (t : OptimisticTrie) (txs : List Transaction) :
    ChallengerNode.speculate hs v sr t txs =
      match (copyLoop t txs).1 with
      | none => none
      | some (Err.InvalidBalance addr) =>
        some (match ChallengerNode.sendFraudProof hs v addr with
          | some err => .error err
          | none => .ok sr)
      | some err => some (.error err) := by
  induction txs generalizing t with
  | nil => rfl
  | cons tx txs ih =>
    unfold copyLoop at ih ⊢
    cases h : ProcessTx t tx with
    | error e =>
      cases e <;> simp [ChallengerNode.speculate, forRange, onTrie, h]
      cases ChallengerNode.sendFraudProof hs v _ <;> rfl
    | ok t1 => simpa [ChallengerNode.speculate, forRange, onTrie, h] using ih t1

/-- The Batch arm of the Challenger on a batch that is applied. -/
theorem ChallengerNode.batchArm_applied (gw : OptimisticSContract) (hs : TrieHasher)
    (v : ChallengerNode) (lc : AggregatorNode.ReplayLocals) (input : SolidityBatch)
    (batch : Batch) (isValid : Bool) (head : Hash)
    (hdec : input.ToGolangFormat = .ok batch)
    (hvalid : gw.IsStateRootValid v.calls batch.StateRoot = .ok isValid)
    (hhead : gw.GetStateRoot (v.calls ++ [Call.IsStateRootValid batch.StateRoot]) = .ok head)
    (happ : isValid = true ∨ (input.StateRoot = head ∧
      (copyLoop (depositLoop v.accountsTrie lc.pendingDeposits).2 batch.Transactions).1 = none)) :
    ChallengerNode.replayBatch gw hs v lc input =
      match txLoop hs lc.stateRoot (depositLoop v.accountsTrie lc.pendingDeposits).2
          batch.Transactions with
      | (some err, s) => (Flow.ret (.error err), { v.afterDrain lc batch with accountsTrie := s.2 })
      | (none, s) =>
        (Flow.next { stateRoot := s.1, pendingDeposits := [] },
         { v.afterDrain lc batch with accountsTrie := s.2 }) := by
  unfold ChallengerNode.replayBatch
  simp only [hdec, hvalid, hhead, ChallengerNode.afterDrain] at happ ⊢
  rw [depositLoop_eq v.accountsTrie lc.pendingDeposits]
  simp only [Copy, ChallengerNode.speculate_eq]
  cases isValid with
  | true => simp
  | false =>
    simp only [Bool.false_eq_true, false_or] at happ
    obtain ⟨hh, hc⟩ := happ
    simp [hh, hc]

/-- The Batch arm of the Challenger on the head batch, not yet valid, whose replay on the
copy fails: the method returns and the real trie stays as drained. -/
theorem ChallengerNode.batchArm_rejected (gw : OptimisticSContract) (hs : TrieHasher)
    (v : ChallengerNode) (lc : AggregatorNode.ReplayLocals) (input : SolidityBatch)
    (batch : Batch) (head : Hash) (err : Err)
    (hdec : input.ToGolangFormat = .ok batch)
    (hvalid : gw.IsStateRootValid v.calls batch.StateRoot = .ok false)
    (hhead : gw.GetStateRoot (v.calls ++ [Call.IsStateRootValid batch.StateRoot]) = .ok head)
    (hh : input.StateRoot = head)
    (hc : (copyLoop (depositLoop v.accountsTrie lc.pendingDeposits).2
        batch.Transactions).1 = some err) :
    ∃ result, ChallengerNode.replayBatch gw hs v lc input =
      (Flow.ret result, v.afterDrain lc batch) := by
  unfold ChallengerNode.replayBatch
  simp only [hdec, hvalid, hhead, ChallengerNode.afterDrain]
  rw [depositLoop_eq v.accountsTrie lc.pendingDeposits]
  simp only [Copy, ChallengerNode.speculate_eq, Bool.false_eq_true, if_false, hh, if_true, hc]
  cases err <;> simp

/-- The Batch arm of the Challenger on the head batch, not yet valid, whose replay on the
copy stops with `InvalidBalance`: the method returns what `sendFraudProof` returns, and
`sendFraudProof` works on the trie of the node. -/
theorem ChallengerNode.batchArm_fraud (gw : OptimisticSContract) (hs : TrieHasher)
    (v : ChallengerNode) (lc : AggregatorNode.ReplayLocals) (input : SolidityBatch)
    (batch : Batch) (head : Hash) (addr : Address)
    (hdec : input.ToGolangFormat = .ok batch)
    (hvalid : gw.IsStateRootValid v.calls batch.StateRoot = .ok false)
    (hhead : gw.GetStateRoot (v.calls ++ [Call.IsStateRootValid batch.StateRoot]) = .ok head)
    (hh : input.StateRoot = head)
    (hc : (copyLoop (depositLoop v.accountsTrie lc.pendingDeposits).2
        batch.Transactions).1 = some (Err.InvalidBalance addr)) :
    ChallengerNode.replayBatch gw hs v lc input =
      (Flow.ret (match hs.NewProve (v.afterDrain lc batch).accountsTrie addr with
        | .error err => .error err
        | .ok _ => .ok lc.stateRoot), v.afterDrain lc batch) := by
  unfold ChallengerNode.replayBatch
  simp only [hdec, hvalid, hhead, ChallengerNode.afterDrain]
  rw [depositLoop_eq v.accountsTrie lc.pendingDeposits]
  simp only [Copy, ChallengerNode.speculate_eq, Bool.false_eq_true, if_false, hh, if_true, hc,
    ChallengerNode.sendFraudProof]
  cases hs.NewProve (depositLoop v.accountsTrie lc.pendingDeposits).2 addr <;> rfl

/-- The Batch arm of the Challenger on a batch that is neither valid nor the head: skipped. -/
theorem ChallengerNode.batchArm_skipped (gw : OptimisticSContract) (hs : TrieHasher)
    (v : ChallengerNode) (lc : AggregatorNode.ReplayLocals) (input : SolidityBatch)
    (batch : Batch) (head : Hash)
    (hdec : input.ToGolangFormat = .ok batch)
    (hvalid : gw.IsStateRootValid v.calls batch.StateRoot = .ok false)
    (hhead : gw.GetStateRoot (v.calls ++ [Call.IsStateRootValid batch.StateRoot]) = .ok head)
    (hh : input.StateRoot ≠ head) :
    ChallengerNode.replayBatch gw hs v lc input =
      (Flow.next { stateRoot := lc.stateRoot, pendingDeposits := [] },
       v.afterDrain lc batch) := by
  unfold ChallengerNode.replayBatch
  simp only [hdec, hvalid, hhead, ChallengerNode.afterDrain]
  rw [depositLoop_eq v.accountsTrie lc.pendingDeposits]
  simp [hh]

theorem AggregatorNode.replayBatch_ok_pending (gw : OptimisticSContract) (hs : TrieHasher)
    (ag ag1 : AggregatorNode) (lc lc1 : AggregatorNode.ReplayLocals) (input : SolidityBatch)
    (h : AggregatorNode.replayBatch gw hs ag lc input = (.ok lc1, ag1)) :
    lc1.pendingDeposits = [] := by
  cases hdec : input.ToGolangFormat with
  | error e =>
    unfold AggregatorNode.replayBatch at h
    simp [hdec] at h
  | ok batch =>
    cases hvalid : gw.IsStateRootValid ag.calls batch.StateRoot with
    | error e =>
      unfold AggregatorNode.replayBatch at h
      simp [hdec, hvalid] at h
    | ok isValid =>
      cases hhead : gw.GetStateRoot (ag.calls ++ [Call.IsStateRootValid batch.StateRoot]) with
      | error e =>
        unfold AggregatorNode.replayBatch at h
        simp [hdec, hvalid, hhead] at h
      | ok head =>
        by_cases happ : isValid = true ∨ (input.StateRoot = head ∧
            (copyLoop (drained ag.accountsTrie lc.pendingDeposits ag.pendingWithdraws)
              batch.Transactions).1 = none)
        · rw [AggregatorNode.replayBatch_applied gw hs ag lc input batch isValid head hdec hvalid
            hhead happ] at h
          rcases hres : txLoop hs lc.stateRoot
            (drained ag.accountsTrie lc.pendingDeposits ag.pendingWithdraws)
            batch.Transactions with ⟨e, st⟩
          rw [hres] at h
          cases e with
          | some err => simp at h
          | none =>
            simp only [Prod.mk.injEq, Except.ok.injEq] at h
            rw [← h.1]
        · have hfalse : isValid = false := by
            cases isValid with
            | false => rfl
            | true => exact absurd (Or.inl rfl) happ
          subst hfalse
          by_cases hh : input.StateRoot = head
          · cases hc : (copyLoop (drained ag.accountsTrie lc.pendingDeposits ag.pendingWithdraws)
              batch.Transactions).1 with
            | none => exact absurd (Or.inr ⟨hh, hc⟩) happ
            | some err =>
              rw [AggregatorNode.replayBatch_rejected gw hs ag lc input batch head err hdec
                hvalid hhead hh hc] at h
              simp at h
          · rw [AggregatorNode.replayBatch_skipped gw hs ag lc input batch head hdec hvalid
              hhead hh] at h
            simp only [Prod.mk.injEq, Except.ok.injEq] at h
            rw [← h.1]

/-- Invariant of the loop of the Aggregator: when the loop ends without error, the stream
splits into a part that is empty or ends with a Batch event and a rest without Batch events;
the returned deposits are those of the rest (after the locals, when no Batch event came), and
the trie is the one reached at the end of the first part. -/
theorem AggregatorNode.replayLoop_residual (gw : OptimisticSContract) (hs : TrieHasher)
    (events : List Event) :
    ∀ (ag ag1 : AggregatorNode) (lc : AggregatorNode.ReplayLocals) (root : Hash)
      (deps : List Deposit),
      AggregatorNode.replayLoop gw hs ag lc events = (.ok (root, deps), ag1) →
      ∃ pre post, events = pre ++ post ∧ (∀ e ∈ post, Event.isBatch e = false) ∧
        (pre = [] ∨ ∃ pre0 b, pre = pre0 ++ [Event.Batch b]) ∧
        deps = (if pre = [] then lc.pendingDeposits else []) ++ depositsOf post ∧
        ag1.accountsTrie = (AggregatorNode.replayLoop gw hs ag lc pre).2.accountsTrie := by
  induction events with
  | nil =>
    intro ag ag1 lc root deps h
    simp only [AggregatorNode.replayLoop, Prod.mk.injEq, Except.ok.injEq] at h
    obtain ⟨⟨_, hd⟩, ha⟩ := h
    refine ⟨[], [], rfl, by simp, Or.inl rfl, ?_, ?_⟩
    · simp [depositsOf, hd]
    · simp [AggregatorNode.replayLoop, ha]
  | cons e rest ih =>
    intro ag ag1 lc root deps h
    cases e with
    | Batch input =>
      simp only [AggregatorNode.replayLoop] at h
      rcases hb : AggregatorNode.replayBatch gw hs ag lc input with ⟨r, ag2⟩
      rw [hb] at h
      cases r with
      | error err => simp at h
      | ok lc1 =>
        simp only at h
        have hpd := AggregatorNode.replayBatch_ok_pending gw hs ag ag2 lc lc1 input hb
        obtain ⟨pre, post, hev, hpost, hpre, hdeps, htrie⟩ := ih ag2 ag1 lc1 root deps h
        refine ⟨Event.Batch input :: pre, post, by simp [hev], hpost, Or.inr ?_, ?_, ?_⟩
        · rcases hpre with hnil | ⟨pre0, b, hp⟩
          · exact ⟨[], input, by simp [hnil]⟩
          · exact ⟨Event.Batch input :: pre0, b, by simp [hp]⟩
        · rw [hdeps]
          by_cases hnil : pre = [] <;> simp [hnil, hpd]
        · rw [htrie]
          simp only [AggregatorNode.replayLoop, hb]
    | Deposit d =>
      simp only [AggregatorNode.replayLoop] at h
      obtain ⟨pre, post, hev, hpost, hpre, hdeps, htrie⟩ := ih ag ag1 _ root deps h
      by_cases hnil : pre = []
      · subst hnil
        refine ⟨[], Event.Deposit d :: post, by simpa using hev, ?_, Or.inl rfl, ?_, ?_⟩
        · intro x hx
          rcases List.mem_cons.1 hx with rfl | hx
          · rfl
          · exact hpost x hx
        · simp [hdeps, depositsOf]
        · simpa [AggregatorNode.replayLoop] using htrie
      · refine ⟨Event.Deposit d :: pre, post, by simp [hev], hpost, Or.inr ?_, ?_, ?_⟩
        · rcases hpre with h0 | ⟨pre0, b, hp⟩
          · exact absurd h0 hnil
          · exact ⟨Event.Deposit d :: pre0, b, by simp [hp]⟩
        · simpa [hnil] using hdeps
        · simpa [AggregatorNode.replayLoop] using htrie
    | Withdraw w =>
      simp only [AggregatorNode.replayLoop] at h
      obtain ⟨pre, post, hev, hpost, hpre, hdeps, htrie⟩ := ih _ ag1 lc root deps h
      by_cases hnil : pre = []
      · subst hnil
        refine ⟨[], Event.Withdraw w :: post, by simpa using hev, ?_, Or.inl rfl, ?_, ?_⟩
        · intro x hx
          rcases List.mem_cons.1 hx with rfl | hx
          · rfl
          · exact hpost x hx
        · simpa [depositsOf] using hdeps
        · simpa [AggregatorNode.replayLoop] using htrie
      · refine ⟨Event.Withdraw w :: pre, post, by simp [hev], hpost, Or.inr ?_, ?_, ?_⟩
        · rcases hpre with h0 | ⟨pre0, b, hp⟩
          · exact absurd h0 hnil
          · exact ⟨Event.Withdraw w :: pre0, b, by simp [hp]⟩
        · simpa [hnil] using hdeps
        · simpa [AggregatorNode.replayLoop] using htrie
    | Error err => simp [AggregatorNode.replayLoop] at h
    | Other => simp [AggregatorNode.replayLoop] at h

/-- The Batch arm of the Aggregator only adds `IsStateRootValid` and `GetStateRoot` calls to
the log. -/
theorem AggregatorNode.replayBatch_calls (gw : OptimisticSContract) (hs : TrieHasher)
    (ag : AggregatorNode) (lc : AggregatorNode.ReplayLocals) (input : SolidityBatch) :
    ∃ extra, (AggregatorNode.replayBatch gw hs ag lc input).2.calls = ag.calls ++ extra ∧
      ∀ c ∈ extra, Call.isBatchArmCall c = true := by
  have hboth : ∀ (b : Batch), ∀ c ∈ [Call.IsStateRootValid b.StateRoot] ++ [Call.GetStateRoot],
      Call.isBatchArmCall c = true := by
    intro b c hc
    simp only [List.singleton_append, List.mem_cons, List.mem_singleton, List.not_mem_nil,
      or_false] at hc
    rcases hc with rfl | rfl <;> rfl
  cases hdec : input.ToGolangFormat with
  | error e =>
    unfold AggregatorNode.replayBatch
    simp only [hdec]
    exact ⟨[], (List.append_nil _).symm, fun c hc => absurd hc (List.not_mem_nil c)⟩
  | ok batch =>
    replace hboth := hboth batch
    cases hvalid : gw.IsStateRootValid ag.calls batch.StateRoot with
    | error e =>
      unfold AggregatorNode.replayBatch
      simp only [hdec, hvalid]
      refine ⟨[Call.IsStateRootValid batch.StateRoot], rfl, ?_⟩
      intro c hc
      rw [List.mem_singleton.1 hc]
      rfl
    | ok isValid =>
      cases hhead : gw.GetStateRoot (ag.calls ++ [Call.IsStateRootValid batch.StateRoot]) with
      | error e =>
        unfold AggregatorNode.replayBatch
        simp only [hdec, hvalid, hhead]
        exact ⟨_, List.append_assoc _ _ _, hboth⟩
      | ok head =>
        by_cases happ : isValid = true ∨ (input.StateRoot = head ∧
            (copyLoop (drained ag.accountsTrie lc.pendingDeposits ag.pendingWithdraws) batch.Transactions).1 = none)
        · rw [AggregatorNode.replayBatch_applied gw hs ag lc input batch isValid head hdec hvalid hhead happ]
          rcases txLoop hs lc.stateRoot (drained ag.accountsTrie lc.pendingDeposits ag.pendingWithdraws) batch.Transactions with ⟨e, st⟩
          cases e <;> exact ⟨_, List.append_assoc _ _ _, hboth⟩
        · have hfalse : isValid = false := by
            cases isValid with
            | false => rfl
            | true => exact absurd (Or.inl rfl) happ
          subst hfalse
          by_cases hh : input.StateRoot = head
          · cases hc : (copyLoop (drained ag.accountsTrie lc.pendingDeposits ag.pendingWithdraws) batch.Transactions).1 with
            | none => exact absurd (Or.inr ⟨hh, hc⟩) happ
            | some err =>
              rw [AggregatorNode.replayBatch_rejected gw hs ag lc input batch head err hdec hvalid hhead hh hc]
              exact ⟨_, List.append_assoc _ _ _, hboth⟩
          · rw [AggregatorNode.replayBatch_skipped gw hs ag lc input batch head hdec hvalid hhead hh]
            exact ⟨_, List.append_assoc _ _ _, hboth⟩

/-- The loop of the Aggregator only adds `IsStateRootValid` and `GetStateRoot` calls. -/
theorem AggregatorNode.replayLoop_calls (gw : OptimisticSContract) (hs : TrieHasher)
    (events : List Event) :
    ∀ (ag : AggregatorNode) (lc : AggregatorNode.ReplayLocals),
      ∃ extra, (AggregatorNode.replayLoop gw hs ag lc events).2.calls = ag.calls ++ extra ∧
        ∀ c ∈ extra, Call.isBatchArmCall c = true := by
  induction events with
  | nil => intro ag lc; exact ⟨[], by simp [AggregatorNode.replayLoop], by simp⟩
  | cons e rest ih =>
    intro ag lc
    cases e with
    | Batch input =>
      obtain ⟨x1, h1, hx1⟩ := AggregatorNode.replayBatch_calls gw hs ag lc input
      simp only [AggregatorNode.replayLoop]
      rcases hb : AggregatorNode.replayBatch gw hs ag lc input with ⟨r, ag2⟩
      rw [hb] at h1
      cases r with
      | error err => exact ⟨x1, h1, hx1⟩
      | ok lc1 =>
        obtain ⟨x2, h2, hx2⟩ := ih ag2 lc1
        refine ⟨x1 ++ x2, ?_, ?_⟩
        · simp only at h1 ⊢
          rw [h2, h1, List.append_assoc]
        · intro c hc
          rcases List.mem_append.1 hc with hc | hc
          · exact hx1 c hc
          · exact hx2 c hc
    | Deposit d => simpa [AggregatorNode.replayLoop] using ih ag _
    | Withdraw w => simpa [AggregatorNode.replayLoop] using ih _ lc
    | Error err => exact ⟨[], by simp [AggregatorNode.replayLoop], by simp⟩
    | Other => exact ⟨[], by simp [AggregatorNode.replayLoop], by simp⟩

/-- The Batch arm of the Challenger only adds `IsStateRootValid` and `GetStateRoot` calls. -/
theorem ChallengerNode.batchArm_calls (gw : OptimisticSContract) (hs : TrieHasher)
    (v : ChallengerNode) (lc : AggregatorNode.ReplayLocals) (input : SolidityBatch) :
    ∃ extra, (ChallengerNode.replayBatch gw hs v lc input).2.calls = v.calls ++ extra ∧
      ∀ c ∈ extra, Call.isBatchArmCall c = true := by
  have hboth : ∀ (b : Batch), ∀ c ∈ [Call.IsStateRootValid b.StateRoot] ++ [Call.GetStateRoot],
      Call.isBatchArmCall c = true := by
    intro b c hc
    simp only [List.singleton_append, List.mem_cons, List.mem_singleton, List.not_mem_nil,
      or_false] at hc
    rcases hc with rfl | rfl <;> rfl
  cases hdec : input.ToGolangFormat with
  | error e =>
    unfold ChallengerNode.replayBatch
    simp only [hdec]
    exact ⟨[], (List.append_nil _).symm, fun c hc => absurd hc (List.not_mem_nil c)⟩
  | ok batch =>
    replace hboth := hboth batch
    cases hvalid : gw.IsStateRootValid v.calls batch.StateRoot with
    | error e =>
      unfold ChallengerNode.replayBatch
      simp only [hdec, hvalid]
      refine ⟨[Call.IsStateRootValid batch.StateRoot], rfl, ?_⟩
      intro c hc
      rw [List.mem_singleton.1 hc]
      rfl
    | ok isValid =>
      cases hhead : gw.GetStateRoot (v.calls ++ [Call.IsStateRootValid batch.StateRoot]) with
      | error e =>
        unfold ChallengerNode.replayBatch
        simp only [hdec, hvalid, hhead]
        exact ⟨_, List.append_assoc _ _ _, hboth⟩
      | ok head =>
        by_cases happ : isValid = true ∨ (input.StateRoot = head ∧
            (copyLoop ((depositLoop v.accountsTrie lc.pendingDeposits).2) batch.Transactions).1 = none)
        · rw [ChallengerNode.batchArm_applied gw hs v lc input batch isValid head hdec hvalid hhead happ]
          rcases txLoop hs lc.stateRoot ((depositLoop v.accountsTrie lc.pendingDeposits).2) batch.Transactions with ⟨e, st⟩
          cases e <;> exact ⟨_, List.append_assoc _ _ _, hboth⟩
        · have hfalse : isValid = false := by
            cases isValid with
            | false => rfl
            | true => exact absurd (Or.inl rfl) happ
          subst hfalse
          by_cases hh : input.StateRoot = head
          · cases hc : (copyLoop ((depositLoop v.accountsTrie lc.pendingDeposits).2) batch.Transactions).1 with
            | none => exact absurd (Or.inr ⟨hh, hc⟩) happ
            | some err =>
              obtain ⟨result, hres⟩ := ChallengerNode.batchArm_rejected gw hs v lc input batch head err hdec
                hvalid hhead hh hc
              rw [hres]
              exact ⟨_, List.append_assoc _ _ _, hboth⟩
          · rw [ChallengerNode.batchArm_skipped gw hs v lc input batch head hdec hvalid hhead hh]
            exact ⟨_, List.append_assoc _ _ _, hboth⟩

/-- The loop of the Challenger only adds `IsStateRootValid` and `GetStateRoot` calls. -/
theorem ChallengerNode.loop_calls (gw : OptimisticSContract) (hs : TrieHasher)
    (events : List Event) :
    ∀ (v : ChallengerNode) (lc : AggregatorNode.ReplayLocals),
      ∃ extra, (ChallengerNode.replayLoop gw hs v lc events).2.calls = v.calls ++ extra ∧
        ∀ c ∈ extra, Call.isBatchArmCall c = true := by
  induction events with
  | nil => intro v lc; exact ⟨[], by simp [ChallengerNode.replayLoop], by simp⟩
  | cons e rest ih =>
    intro v lc
    cases e with
    | Batch input =>
      obtain ⟨x1, h1, hx1⟩ := ChallengerNode.batchArm_calls gw hs v lc input
      simp only [ChallengerNode.replayLoop]
      rcases hb : ChallengerNode.replayBatch gw hs v lc input with ⟨r, v2⟩
      rw [hb] at h1
      cases r with
      | ret result => exact ⟨x1, h1, hx1⟩
      | next lc1 =>
        obtain ⟨x2, h2, hx2⟩ := ih v2 lc1
        refine ⟨x1 ++ x2, ?_, ?_⟩
        · simp only at h1 ⊢
          rw [h2, h1, List.append_assoc]
        · intro c hc
          rcases List.mem_append.1 hc with hc | hc
          · exact hx1 c hc
          · exact hx2 c hc
    | Deposit d => simpa [ChallengerNode.replayLoop] using ih v _
    | Withdraw w => exact ⟨[], by simp [ChallengerNode.replayLoop], by simp⟩
    | Error err => exact ⟨[], by simp [ChallengerNode.replayLoop], by simp⟩
    | Other => exact ⟨[], by simp [ChallengerNode.replayLoop], by simp⟩

/-- A pass of the Aggregator adds one `GetOnChainData` call and then only `IsStateRootValid`
and `GetStateRoot` calls. -/
theorem AggregatorNode.computeAccountsTrie_calls (gw : OptimisticSContract) (hs : TrieHasher)
    (ag : AggregatorNode) :
    ∃ extra, (AggregatorNode.computeAccountsTrie gw hs ag).2.calls =
        ag.calls ++ Call.GetOnChainData :: extra ∧
      ∀ c ∈ extra, Call.isBatchArmCall c = true := by
  unfold AggregatorNode.computeAccountsTrie
  obtain ⟨extra, h, hx⟩ := AggregatorNode.replayLoop_calls gw hs (gw.GetOnChainData ag.calls)
    { ag with calls := ag.calls ++ [Call.GetOnChainData] }
    { stateRoot := zeroHash, pendingDeposits := [] }
  exact ⟨extra, by rw [h]; simp, hx⟩

/-- A pass of the Challenger adds one `GetOnChainData` call and then only `IsStateRootValid`
and `GetStateRoot` calls. -/
theorem ChallengerNode.pass_calls (gw : OptimisticSContract) (hs : TrieHasher)
    (v : ChallengerNode) :
    ∃ extra, (ChallengerNode.computeAccountsTrie gw hs v).2.calls =
        v.calls ++ Call.GetOnChainData :: extra ∧
      ∀ c ∈ extra, Call.isBatchArmCall c = true := by
  unfold ChallengerNode.computeAccountsTrie
  obtain ⟨extra, h, hx⟩ := ChallengerNode.loop_calls gw hs (gw.GetOnChainData v.calls)
    { v with calls := v.calls ++ [Call.GetOnChainData] }
    { stateRoot := zeroHash, pendingDeposits := [] }
  exact ⟨extra, by rw [h]; simp, hx⟩

theorem countP_isGetOnChainData_batchArm (extra : List Call)
    (hx : ∀ c ∈ extra, Call.isBatchArmCall c = true) :
    List.countP Call.isGetOnChainData extra = 0 := by
  rw [List.countP_eq_zero]
  intro c hc
  have := hx c hc
  cases c <;> simp_all [Call.isBatchArmCall, Call.isGetOnChainData]

theorem countP_isNewBatch_batchArm (extra : List Call)
    (hx : ∀ c ∈ extra, Call.isBatchArmCall c = true) :
    List.countP Call.isNewBatch extra = 0 := by
  rw [List.countP_eq_zero]
  intro c hc
  have := hx c hc
  cases c <;> simp_all [Call.isBatchArmCall, Call.isNewBatch]

/-- Below the threshold `ReceiveTransaction` only appends to the buffer. -/
theorem AggregatorNode.receive_below (gw : OptimisticSContract) (hs : TrieHasher)
    (ag : AggregatorNode) (tx : Transaction)
    (h : ag.transactions.length + 1 ≠ MAX_TRANSACTIONS_BATCH) :
    AggregatorNode.ReceiveTransaction gw hs ag tx =
      (AggregatorNode.Outcome.returned none,
       { ag with transactions := ag.transactions ++ [tx] }) := by
  unfold AggregatorNode.ReceiveTransaction
  simp only [List.length_append, List.length_singleton, h, if_false]

/-- A run of calls that stays below the threshold appends its transactions to the buffer and
hands over to the calls that follow. -/
theorem AggregatorNode.receiveAll_below (gw : OptimisticSContract) (hs : TrieHasher)
    (pre rest : List Transaction) :
    ∀ (ag : AggregatorNode), ag.transactions.length + pre.length < MAX_TRANSACTIONS_BATCH →
      AggregatorNode.receiveAll gw hs ag (pre ++ rest) =
        (List.replicate pre.length (AggregatorNode.Outcome.returned none) ++
          (AggregatorNode.receiveAll gw hs
            { ag with transactions := ag.transactions ++ pre } rest).1,
         (AggregatorNode.receiveAll gw hs
            { ag with transactions := ag.transactions ++ pre } rest).2) := by
  induction pre with
  | nil => intro ag _; simp
  | cons tx pre ih =>
    intro ag h
    simp only [List.length_cons] at h
    have h1 : ag.transactions.length + 1 ≠ MAX_TRANSACTIONS_BATCH := by omega
    have h2 : (ag.transactions ++ [tx]).length + pre.length < MAX_TRANSACTIONS_BATCH := by
      simp only [List.length_append, List.length_singleton]
      omega
    have e : (tx :: pre) ++ rest = tx :: (pre ++ rest) := rfl
    rw [e, AggregatorNode.receiveAll, AggregatorNode.receive_below gw hs ag tx h1]
    simp only
    rw [ih { ag with transactions := ag.transactions ++ [tx] } h2]
    simp [List.replicate_succ, List.append_assoc]

/-- The Batch arm of the Aggregator leaves the transaction buffer alone. -/
theorem AggregatorNode.replayBatch_transactions (gw : OptimisticSContract) (hs : TrieHasher)
    (ag : AggregatorNode) (lc : AggregatorNode.ReplayLocals) (input : SolidityBatch) :
    (AggregatorNode.replayBatch gw hs ag lc input).2.transactions = ag.transactions := by
  cases hdec : input.ToGolangFormat with
  | error e =>
    unfold AggregatorNode.replayBatch
    simp only [hdec]
  | ok batch =>
    cases hvalid : gw.IsStateRootValid ag.calls batch.StateRoot with
    | error e =>
      unfold AggregatorNode.replayBatch
      simp only [hdec, hvalid]
    | ok isValid =>
      cases hhead : gw.GetStateRoot (ag.calls ++ [Call.IsStateRootValid batch.StateRoot]) with
      | error e =>
        unfold AggregatorNode.replayBatch
        simp only [hdec, hvalid, hhead]
      | ok head =>
        by_cases happ : isValid = true ∨ (input.StateRoot = head ∧
            (copyLoop (drained ag.accountsTrie lc.pendingDeposits ag.pendingWithdraws)
              batch.Transactions).1 = none)
        · rw [AggregatorNode.replayBatch_applied gw hs ag lc input batch isValid head hdec hvalid
            hhead happ]
          rcases txLoop hs lc.stateRoot
            (drained ag.accountsTrie lc.pendingDeposits ag.pendingWithdraws)
            batch.Transactions with ⟨e, st⟩
          cases e <;> rfl
        · have hfalse : isValid = false := by
            cases isValid with
            | false => rfl
            | true => exact absurd (Or.inl rfl) happ
          subst hfalse
          by_cases hh : input.StateRoot = head
          · cases hc : (copyLoop (drained ag.accountsTrie lc.pendingDeposits ag.pendingWithdraws)
              batch.Transactions).1 with
            | none => exact absurd (Or.inr ⟨hh, hc⟩) happ
            | some err =>
              rw [AggregatorNode.replayBatch_rejected gw hs ag lc input batch head err hdec
                hvalid hhead hh hc]
              rfl
          · rw [AggregatorNode.replayBatch_skipped gw hs ag lc input batch head hdec hvalid
              hhead hh]
            rfl

/-- The loop of the Aggregator leaves the transaction buffer alone. -/
theorem AggregatorNode.replayLoop_transactions (gw : OptimisticSContract) (hs : TrieHasher)
    (events : List Event) :
    ∀ (ag : AggregatorNode) (lc : AggregatorNode.ReplayLocals),
      (AggregatorNode.replayLoop gw hs ag lc events).2.transactions = ag.transactions := by
  induction events with
  | nil => intro ag lc; rfl
  | cons e rest ih =>
    intro ag lc
    cases e with
    | Batch input =>
      have h1 := AggregatorNode.replayBatch_transactions gw hs ag lc input
      simp only [AggregatorNode.replayLoop]
      rcases hb : AggregatorNode.replayBatch gw hs ag lc input with ⟨r, ag2⟩
      rw [hb] at h1
      cases r with
      | error err => exact h1
      | ok lc1 =>
        simp only at h1 ⊢
        rw [ih ag2 lc1, h1]
    | Deposit d => simpa [AggregatorNode.replayLoop] using ih ag _
    | Withdraw w => simpa [AggregatorNode.replayLoop] using ih _ lc
    | Error err => rfl
    | Other => rfl

/-- The method `Synced` of the Aggregator leaves the transaction buffer alone, and the calls
it adds to the log are never `NewBatch` calls. -/
theorem AggregatorNode.Synced_frame (gw : OptimisticSContract) (hs : TrieHasher)
    (ag : AggregatorNode) :
    (AggregatorNode.Synced gw hs ag).2.transactions = ag.transactions ∧
    ∃ extra, (AggregatorNode.Synced gw hs ag).2.calls = ag.calls ++ extra ∧
      List.countP Call.isNewBatch extra = 0 := by
  have htx := AggregatorNode.replayLoop_transactions gw hs
    (gw.GetOnChainData (ag.calls ++ [Call.GetStateRoot]))
    { ag with calls := ag.calls ++ [Call.GetStateRoot] ++ [Call.GetOnChainData] }
    { stateRoot := zeroHash, pendingDeposits := [] }
  obtain ⟨extra, hc, hx⟩ := AggregatorNode.computeAccountsTrie_calls gw hs
    { ag with calls := ag.calls ++ [Call.GetStateRoot] }
  have hzero : List.countP Call.isNewBatch (Call.GetStateRoot :: Call.GetOnChainData :: extra)
      = 0 := by
    simp [List.countP_cons, Call.isNewBatch, countP_isNewBatch_batchArm extra hx]
  simp only [AggregatorNode.Synced, AggregatorNode.onChainStateRoot]
  cases hg : gw.GetStateRoot ag.calls with
  | error err =>
    refine ⟨?_, [Call.GetStateRoot], ?_, ?_⟩ <;> rfl
  | ok h =>
    simp only
    by_cases heq : h = hs.StateRoot ag.accountsTrie
    · simp only [heq, if_true]
      refine ⟨?_, [Call.GetStateRoot], ?_, ?_⟩ <;> first | rfl | trivial
    · simp only [heq, if_false]
      unfold AggregatorNode.computeAccountsTrie at hc ⊢
      simp only at htx hc ⊢
      rcases hp : AggregatorNode.replayLoop gw hs
        { ag with calls := ag.calls ++ [Call.GetStateRoot] ++ [Call.GetOnChainData] }
        { stateRoot := zeroHash, pendingDeposits := [] }
        (gw.GetOnChainData (ag.calls ++ [Call.GetStateRoot])) with ⟨r, ag2⟩
      rw [hp] at htx hc
      simp only at htx hc
      have hc2 : ag2.calls = ag.calls ++ (Call.GetStateRoot :: Call.GetOnChainData :: extra) := by
        rw [hc]
        simp
      cases r with
      | error err => exact ⟨htx, _, hc2, hzero⟩
      | ok res =>
        obtain ⟨root, deps⟩ := res
        by_cases hr : root = h
        · simp only [hr, ne_eq, not_true_eq_false, if_false]
          exact ⟨htx, _, hc2, hzero⟩
        · simp only [hr, ne_eq, not_false_eq_true, if_true]
          exact ⟨htx, _, hc2, hzero⟩

/-- At the threshold `ReceiveTransaction` calls `Synced` and, when it answers true,
`sendBatch`. -/
theorem AggregatorNode.receive_at_threshold (gw : OptimisticSContract) (hs : TrieHasher)
    (ag : AggregatorNode) (tx : Transaction)
    (h : ag.transactions.length + 1 = MAX_TRANSACTIONS_BATCH) :
    AggregatorNode.ReceiveTransaction gw hs ag tx =
      match AggregatorNode.Synced gw hs { ag with transactions := ag.transactions ++ [tx] } with
      | ((true, _), ag2) =>
        match AggregatorNode.sendBatch gw hs ag2 with
        | (some err, ag3) => (AggregatorNode.Outcome.returned (some err), ag3)
        | (none, ag3) => (AggregatorNode.Outcome.returned none, ag3)
      | ((false, err), ag2) => (AggregatorNode.Outcome.fatal err, ag2) := by
  unfold AggregatorNode.ReceiveTransaction
  simp only [List.length_append, List.length_singleton, h, if_true]

/-- The method `sendBatch` when every step succeeds. -/
theorem AggregatorNode.sendBatch_ok (gw : OptimisticSContract) (hs : TrieHasher)
    (ag : AggregatorNode) (prev : Hash) (t3 : OptimisticTrie) (opts : TxOpts)
    (hg : gw.GetStateRoot ag.calls = .ok prev)
    (hp : AggregatorNode.applyPending ag = (none, t3))
    (ho : gw.PrepareTxOptions (ag.calls ++ [Call.GetStateRoot]) 0 2 2 = .ok opts)
    (hn : gw.NewBatch (ag.calls ++ [Call.GetStateRoot] ++ [Call.PrepareTxOptions 0 2 2])
      (Batch.SolidityFormat { PrevStateRoot := prev, StateRoot := hs.StateRoot t3,
                              Transactions := ag.transactions }) opts = .ok ()) :
    AggregatorNode.sendBatch gw hs ag =
      (none, { ag with
        transactions := [], accountsTrie := t3,
        calls := ag.calls ++ [Call.GetStateRoot] ++ [Call.PrepareTxOptions 0 2 2] ++
          [Call.NewBatch (Batch.SolidityFormat
            { PrevStateRoot := prev, StateRoot := hs.StateRoot t3,
              Transactions := ag.transactions }) opts] }) := by
  have hp2 : AggregatorNode.applyPending { ag with calls := ag.calls ++ [Call.GetStateRoot] } =
      (none, t3) := hp
  unfold AggregatorNode.sendBatch AggregatorNode.onChainStateRoot
  simp only [hg, hp2, ho, hn]

/-- The method `sendBatch` when one of the three loops on the trie returns an error. -/
theorem AggregatorNode.sendBatch_pending_error (gw : OptimisticSContract) (hs : TrieHasher)
    (ag : AggregatorNode) (prev : Hash) (t3 : OptimisticTrie) (err : Err)
    (hg : gw.GetStateRoot ag.calls = .ok prev)
    (hp : AggregatorNode.applyPending ag = (some err, t3)) :
    AggregatorNode.sendBatch gw hs ag =
      (some err, { ag with accountsTrie := t3, calls := ag.calls ++ [Call.GetStateRoot] }) := by
  have hp2 : AggregatorNode.applyPending { ag with calls := ag.calls ++ [Call.GetStateRoot] } =
      (some err, t3) := hp
  unfold AggregatorNode.sendBatch AggregatorNode.onChainStateRoot
  simp only [hg, hp2]

/-- A loop whose body keeps an invariant and returns no error under it runs to the end. -/
theorem forRange_preserves {σ α : Type} (body : σ → α → Option Err × σ) (Q : σ → Prop)
    (xs : List α)
    (hbody : ∀ s, Q s → ∀ x ∈ xs, (body s x).1 = none ∧ Q (body s x).2) :
    ∀ s, Q s → (forRange body s xs).1 = none ∧ Q (forRange body s xs).2 := by
  induction xs with
  | nil => intro s hs; exact ⟨rfl, hs⟩
  | cons x xs ih =>
    intro s hs
    obtain ⟨h1, h2⟩ := hbody s hs x (List.mem_cons_self x xs)
    rcases hb : body s x with ⟨e, s1⟩
    rw [hb] at h1 h2
    simp only at h1 h2
    subst h1
    simp only [forRange, hb]
    exact ih (fun s hs y hy => hbody s hs y (List.mem_cons_of_mem x hy)) s1 h2

theorem UpdateAccount_of_nonneg (t : OptimisticTrie) (a : Address) (balance : Int) (nonce : Nat)
    (h : 0 ≤ balance) :
    UpdateAccount t a { Balance := balance, Nonce := nonce } =
      Function.update t a (some { Balance := balance, Nonce := nonce }) := by
  unfold UpdateAccount
  rw [if_neg (not_lt.2 h)]

theorem UpdateAccount_of_neg (t : OptimisticTrie) (a : Address) (balance : Int) (nonce : Nat)
    (h : balance < 0) :
    UpdateAccount t a { Balance := balance, Nonce := nonce } = t := by
  unfold UpdateAccount
  rw [if_pos h]

theorem UpdateAccount_other (t : OptimisticTrie) (a : Address) (acc : Account) (b : Address)
    (hb : b ≠ a) : UpdateAccount t a acc b = t b := by
  unfold UpdateAccount
  by_cases hneg : acc.Balance < 0
  · rw [if_pos hneg]
  · rw [if_neg hneg, Function.update_noteq hb]

theorem UpdateAccount_present (t : OptimisticTrie) (a : Address) (acc : Account) (b : Address)
    (h : t b ≠ none) : UpdateAccount t a acc b ≠ none := by
  unfold UpdateAccount
  by_cases hneg : acc.Balance < 0
  · rw [if_pos hneg]
    exact h
  · rw [if_neg hneg]
    by_cases hb : b = a
    · subst hb
      simp
    · rw [Function.update_noteq hb]
      exact h

/-- A write keeps every stored balance non-negative: an account with a negative balance is
not written. -/
theorem UpdateAccount_balancesNonneg (t : OptimisticTrie) (a : Address) (acc : Account)
    (h : balancesNonneg t) : balancesNonneg (UpdateAccount t a acc) := by
  intro b stored hb
  unfold UpdateAccount at hb
  by_cases hneg : acc.Balance < 0
  · rw [if_pos hneg] at hb
    exact h b stored hb
  · rw [if_neg hneg] at hb
    by_cases hba : b = a
    · subst hba
      rw [Function.update_same] at hb
      cases hb
      exact not_lt.1 hneg
    · rw [Function.update_noteq hba] at hb
      exact h b stored hb

theorem AggregatorNode.addFunds_present (t : OptimisticTrie) (a : Address) (value : Int) :
    ∃ t1, AggregatorNode.addFunds t a value = .ok t1 ∧ ∀ b, t b ≠ none → t1 b ≠ none := by
  unfold AggregatorNode.addFunds GetAccount
  cases h : t a with
  | none => exact ⟨_, rfl, fun b hb => UpdateAccount_present t a _ b hb⟩
  | some acc => exact ⟨_, rfl, fun b hb => UpdateAccount_present t a _ b hb⟩

theorem AggregatorNode.removeFunds_present (t : OptimisticTrie) (a : Address) (value : Int) :
    ∃ t1, AggregatorNode.removeFunds t a value = .ok t1 ∧ ∀ b, t b ≠ none → t1 b ≠ none := by
  unfold AggregatorNode.removeFunds GetAccount
  cases h : t a with
  | none => exact ⟨_, rfl, fun b hb => UpdateAccount_present t a _ b hb⟩
  | some acc => exact ⟨_, rfl, fun b hb => UpdateAccount_present t a _ b hb⟩

theorem AggregatorNode.maliciousProcessTx_present (t : OptimisticTrie) (tx : Transaction)
    (hfrom : t tx.From ≠ none) :
    ∃ t1, AggregatorNode.maliciousProcessTx t tx = .ok t1 ∧ ∀ b, t b ≠ none → t1 b ≠ none := by
  unfold AggregatorNode.maliciousProcessTx GetAccount
  cases hf : t tx.From with
  | none => exact absurd hf hfrom
  | some fromAcc =>
    cases ht : t tx.To with
    | none =>
      exact ⟨_, rfl, fun b hb => UpdateAccount_present _ _ _ b
        (UpdateAccount_present _ _ _ b (UpdateAccount_present t _ _ b hb))⟩
    | some toAcc =>
      exact ⟨_, rfl, fun b hb => UpdateAccount_present _ _ _ b
        (UpdateAccount_present t _ _ b hb)⟩

/-- The three loops of `sendBatch` return no error when every buffered sender has an account
in the trie. -/
theorem AggregatorNode.applyPending_ok_of_senders (ag : AggregatorNode)
    (h : ∀ tx ∈ ag.transactions, ag.accountsTrie tx.From ≠ none) :
    (AggregatorNode.applyPending ag).1 = none := by
  unfold AggregatorNode.applyPending
  obtain ⟨h1, q1⟩ := forRange_preserves
    (onTrie fun t (d : Deposit) => AggregatorNode.addFunds t d.From d.Value)
    (fun t => ∀ tx ∈ ag.transactions, t tx.From ≠ none) ag.pendingDeposits
    (by
      intro t ht d _
      obtain ⟨t1, hok, hp⟩ := AggregatorNode.addFunds_present t d.From d.Value
      simp only [onTrie, hok]
      exact ⟨trivial, fun tx htx => hp _ (ht tx htx)⟩) ag.accountsTrie h
  rcases hd : forRange (onTrie fun t (d : Deposit) => AggregatorNode.addFunds t d.From d.Value)
    ag.accountsTrie ag.pendingDeposits with ⟨e1, t1⟩
  rw [hd] at h1 q1
  simp only at h1 q1
  subst h1
  simp only
  obtain ⟨h2, q2⟩ := forRange_preserves
    (onTrie fun t (w : Withdraw) => AggregatorNode.removeFunds t w.From w.Value)
    (fun t => ∀ tx ∈ ag.transactions, t tx.From ≠ none) ag.pendingWithdraws
    (by
      intro t ht w _
      obtain ⟨t1, hok, hp⟩ := AggregatorNode.removeFunds_present t w.From w.Value
      simp only [onTrie, hok]
      exact ⟨trivial, fun tx htx => hp _ (ht tx htx)⟩) t1 q1
  rcases hw : forRange
    (onTrie fun t (w : Withdraw) => AggregatorNode.removeFunds t w.From w.Value)
    t1 ag.pendingWithdraws with ⟨e2, t2⟩
  rw [hw] at h2 q2
  simp only at h2 q2
  subst h2
  simp only
  exact (forRange_preserves (onTrie AggregatorNode.maliciousProcessTx)
    (fun t => ∀ tx ∈ ag.transactions, t tx.From ≠ none) ag.transactions
    (by
      intro t ht x hx
      obtain ⟨t1, hok, hp⟩ := AggregatorNode.maliciousProcessTx_present t x (ht x hx)
      simp only [onTrie, hok]
      exact ⟨trivial, fun tx htx => hp _ (ht tx htx)⟩) t2 q2).1

/-- Over a stretch of Deposit and Withdraw events the loop of the Aggregator only fills its
two queues, in stream order. -/
theorem AggregatorNode.replayLoop_funds (gw : OptimisticSContract) (hs : TrieHasher)
    (seg rest : List Event) (hseg : ∀ e ∈ seg, Event.isFunds e = true) :
    ∀ (ag : AggregatorNode) (lc : AggregatorNode.ReplayLocals),
      AggregatorNode.replayLoop gw hs ag lc (seg ++ rest) =
        AggregatorNode.replayLoop gw hs
          { ag with pendingWithdraws := ag.pendingWithdraws ++ withdrawsOf seg }
          { lc with pendingDeposits := lc.pendingDeposits ++ depositsOf seg } rest := by
  induction seg with
  | nil => intro ag lc; simp [withdrawsOf, depositsOf]
  | cons e seg ih =>
    intro ag lc
    have htail : ∀ x ∈ seg, Event.isFunds x = true :=
      fun x hx => hseg x (List.mem_cons_of_mem e hx)
    have hhead := hseg e (List.mem_cons_self e seg)
    cases e with
    | Deposit d =>
      have e : (Event.Deposit d :: seg) ++ rest = Event.Deposit d :: (seg ++ rest) := rfl
      rw [e, AggregatorNode.replayLoop, ih htail]
      simp only [depositsOf, withdrawsOf, List.append_assoc, List.singleton_append]
    | Withdraw w =>
      have e : (Event.Withdraw w :: seg) ++ rest = Event.Withdraw w :: (seg ++ rest) := rfl
      rw [e, AggregatorNode.replayLoop, ih htail]
      simp only [depositsOf, withdrawsOf, List.append_assoc, List.singleton_append]
    | Batch input => simp [Event.isFunds] at hhead
    | Error err => simp [Event.isFunds] at hhead
    | Other => simp [Event.isFunds] at hhead

/-! ## Claims -/

/-- C1: when the replay pass of either node meets a Batch event whose state root the contract
reports valid, the deposits seen since the previous Batch event (the locals then hold no
pending deposit) are all credited with `AddFunds`, in stream order and without error, before
the transactions of the batch are replayed with `ProcessTx`; the Aggregator debits its queued
withdraws in between. On a fresh trie the stream Deposit(A,50), Deposit(B,20),
Batch(A to B value 10) ends with A = (40, 1) and B = (30, 0). -/
theorem C1_deposits_before_batch :
    (∀ (gw : OptimisticSContract) (hs : TrieHasher) (ag : AggregatorNode) (stateRoot : Hash)
        (seg : List Event) (input : SolidityBatch) (batch : Batch) (head : Hash),
      (∀ e ∈ seg, Event.isFunds e = true) →
      input.ToGolangFormat = .ok batch →
      gw.IsStateRootValid ag.calls batch.StateRoot = .ok true →
      gw.GetStateRoot (ag.calls ++ [Call.IsStateRootValid batch.StateRoot]) = .ok head →
      (depositLoop ag.accountsTrie (depositsOf seg)).1 = none ∧
      (AggregatorNode.replayLoop gw hs ag { stateRoot := stateRoot, pendingDeposits := [] }
          (seg ++ [Event.Batch input])).2.accountsTrie =
        (txLoop hs stateRoot
          (withdrawLoop (depositLoop ag.accountsTrie (depositsOf seg)).2
            (ag.pendingWithdraws ++ withdrawsOf seg)).2
          batch.Transactions).2.2) ∧
    (∀ (gw : OptimisticSContract) (hs : TrieHasher) (v : ChallengerNode) (stateRoot : Hash)
        (ds : List Deposit) (input : SolidityBatch) (batch : Batch) (head : Hash),
      input.ToGolangFormat = .ok batch →
      gw.IsStateRootValid v.calls batch.StateRoot = .ok true →
      gw.GetStateRoot (v.calls ++ [Call.IsStateRootValid batch.StateRoot]) = .ok head →
      (depositLoop v.accountsTrie ds).1 = none ∧
      (ChallengerNode.replayLoop gw hs v { stateRoot := stateRoot, pendingDeposits := [] }
          (ds.map Event.Deposit ++ [Event.Batch input])).2.accountsTrie =
        (txLoop hs stateRoot (depositLoop v.accountsTrie ds).2 batch.Transactions).2.2) ∧
    (∀ (hs : TrieHasher) (head : Hash),
      (AggregatorNode.computeAccountsTrie (scriptedContract precedenceStream true head) hs
        freshAggregator).2.accountsTrie 1 = some { Balance := 40, Nonce := 1 } ∧
      (AggregatorNode.computeAccountsTrie (scriptedContract precedenceStream true head) hs
        freshAggregator).2.accountsTrie 2 = some { Balance := 30, Nonce := 0 } ∧
      (ChallengerNode.computeAccountsTrie (scriptedContract precedenceStream true head) hs
        freshChallenger).2.accountsTrie 1 = some { Balance := 40, Nonce := 1 } ∧
      (ChallengerNode.computeAccountsTrie (scriptedContract precedenceStream true head) hs
        freshChallenger).2.accountsTrie 2 = some { Balance := 30, Nonce := 0 }) := by
  refine ⟨?_, ?_, ?_⟩
  · intro gw hs ag stateRoot seg input batch head hseg hdec hvalid hhead
    refine ⟨depositLoop_fst _ _, ?_⟩
    rw [AggregatorNode.replayLoop_funds gw hs seg _ hseg]
    simp only [AggregatorNode.replayLoop]
    rw [AggregatorNode.replayBatch_applied gw hs
      { ag with pendingWithdraws := ag.pendingWithdraws ++ withdrawsOf seg } _ input batch true
      head hdec hvalid hhead (Or.inl rfl)]
    simp only [List.nil_append, drained]
    rcases txLoop hs stateRoot (withdrawLoop (depositLoop ag.accountsTrie (depositsOf seg)).2
      (ag.pendingWithdraws ++ withdrawsOf seg)).2 batch.Transactions with ⟨e, s⟩
    cases e <;> rfl
  · intro gw hs v stateRoot ds input batch head hdec hvalid hhead
    refine ⟨depositLoop_fst _ _, ?_⟩
    rw [ChallengerNode.loop_deposits]
    simp only [ChallengerNode.replayLoop]
    rw [ChallengerNode.batchArm_applied gw hs _ _ input batch true head hdec hvalid hhead
      (Or.inl rfl)]
    simp only [List.nil_append]
    rcases txLoop hs stateRoot (depositLoop v.accountsTrie ds).2 batch.Transactions with ⟨e, s⟩
    cases e <;> rfl
  · intro hs head
    exact ⟨rfl, rfl, rfl, rfl⟩

/-- C1 on an Aggregator that has read a deposit to A, a withdraw from A and a deposit to B
before a valid batch: the deposits are credited first, then the withdraw is debited, then the
transfer is replayed. -/
theorem C1_deposits_before_batch_witness :
    (AggregatorNode.replayLoop (scriptedContract [] true 9) sampleHasher freshAggregator
        { stateRoot := zeroHash, pendingDeposits := [] }
        ([Event.Deposit { From := 1, Value := 50 }, Event.Withdraw { From := 1, Value := 5 },
          Event.Deposit { From := 2, Value := 20 }] ++
         [Event.Batch { PrevStateRoot := 0, StateRoot := 9,
                        Transactions := some [transfer 1 2 10] }])).2.accountsTrie =
      (txLoop sampleHasher zeroHash
        (withdrawLoop (depositLoop emptyTrie
          [{ From := 1, Value := 50 }, { From := 2, Value := 20 }]).2
          [{ From := 1, Value := 5 }]).2
        [transfer 1 2 10]).2.2 :=
  (C1_deposits_before_batch.1 (scriptedContract [] true 9) sampleHasher freshAggregator zeroHash
    [Event.Deposit { From := 1, Value := 50 }, Event.Withdraw { From := 1, Value := 5 },
     Event.Deposit { From := 2, Value := 20 }]
    { PrevStateRoot := 0, StateRoot := 9, Transactions := some [transfer 1 2 10] }
    { PrevStateRoot := 0, StateRoot := 9, Transactions := [transfer 1 2 10] } 9
    (by decide) rfl rfl rfl).2

/-- C2 on the code: on the stream Deposit(A,100), Batch(no transactions) with a valid state
root, the pass of either node ends without error and returns the zero hash `common.Hash` as
state root, whatever the hasher, while the trie then holds A = (100, 0); with the sample
hasher the returned root differs from the root of the trie. The local `stateRoot` is written
only by `ProcessTx`. -/
theorem C2_root_stale_after_drain :
    (∀ (hs : TrieHasher) (head : Hash),
      (AggregatorNode.computeAccountsTrie (scriptedContract depositThenBatch true head) hs
        freshAggregator).1 = .ok (zeroHash, []) ∧
      (AggregatorNode.computeAccountsTrie (scriptedContract depositThenBatch true head) hs
        freshAggregator).2.accountsTrie 1 = some { Balance := 100, Nonce := 0 } ∧
      (ChallengerNode.computeAccountsTrie (scriptedContract depositThenBatch true head) hs
        freshChallenger).1 = .ok zeroHash ∧
      (ChallengerNode.computeAccountsTrie (scriptedContract depositThenBatch true head) hs
        freshChallenger).2.accountsTrie 1 = some { Balance := 100, Nonce := 0 }) ∧
    (AggregatorNode.computeAccountsTrie (scriptedContract depositThenBatch true 9) sampleHasher
        freshAggregator).1 ≠
      .ok (sampleHasher.StateRoot
        (AggregatorNode.computeAccountsTrie (scriptedContract depositThenBatch true 9)
          sampleHasher freshAggregator).2.accountsTrie, []) ∧
    (ChallengerNode.computeAccountsTrie (scriptedContract depositThenBatch true 9) sampleHasher
        freshChallenger).1 ≠
      .ok (sampleHasher.StateRoot
        (ChallengerNode.computeAccountsTrie (scriptedContract depositThenBatch true 9)
          sampleHasher freshChallenger).2.accountsTrie) := by
  refine ⟨fun hs head => ⟨rfl, rfl, rfl, rfl⟩, ?_, ?_⟩
  · intro h
    have h2 : (zeroHash : Hash) = 102 := congrArg (fun r => match r with
      | Except.ok (x, _) => x
      | Except.error _ => 0) h
    exact absurd h2 (by decide)
  · intro h
    have h2 : (zeroHash : Hash) = 102 := congrArg (fun r => match r with
      | Except.ok x => x
      | Except.error _ => 0) h
    exact absurd h2 (by decide)

/-- C3: for a Batch event that decodes and whose state root the contract reports not valid,
with D the real trie after the pending deposits (and, in the Aggregator, the queued withdraws)
have been applied: when the state root of the batch is the current on-chain root and the
replay of all its transactions, in order, succeeds, the pass of either node leaves on the real
trie the result of that replay; when the batch is superseded, or the replay stops with an
error at some transaction, the real trie stays D, with none of the transactions of the batch
applied, and the Aggregator returns that error; the real trie is untouched when the on-chain
root cannot be read. After a deposit of 50 to A the head batch that moves 10 from A to B
leaves A = (40, 1), B = (10, 0) in both nodes, and the same batch when superseded leaves
A = (50, 0) and no B; after a deposit of 10 to A the head batch that moves 5 and then 50 from
A to B leaves A = (10, 0) and no B. -/
theorem C3_invalid_batch_applied_iff_head_and_copy_ok :
    (∀ (gw : OptimisticSContract) (hs : TrieHasher) (ag : AggregatorNode)
        (lc : AggregatorNode.ReplayLocals) (input : SolidityBatch) (batch : Batch),
      input.ToGolangFormat = .ok batch →
      gw.IsStateRootValid ag.calls batch.StateRoot = .ok false →
      (∀ head, gw.GetStateRoot (ag.calls ++ [Call.IsStateRootValid batch.StateRoot]) = .ok head →
        (∀ t1, input.StateRoot = head →
          replayInOrder (drained ag.accountsTrie lc.pendingDeposits ag.pendingWithdraws)
            batch.Transactions = .ok t1 →
          (AggregatorNode.replayBatch gw hs ag lc input).2.accountsTrie = t1) ∧
        (∀ err, input.StateRoot = head →
          replayInOrder (drained ag.accountsTrie lc.pendingDeposits ag.pendingWithdraws)
            batch.Transactions = .error err →
          (AggregatorNode.replayBatch gw hs ag lc input).2.accountsTrie =
            drained ag.accountsTrie lc.pendingDeposits ag.pendingWithdraws ∧
          (AggregatorNode.replayBatch gw hs ag lc input).1 = .error err) ∧
        (input.StateRoot ≠ head →
          (AggregatorNode.replayBatch gw hs ag lc input).2.accountsTrie =
            drained ag.accountsTrie lc.pendingDeposits ag.pendingWithdraws)) ∧
      (∀ err, gw.GetStateRoot (ag.calls ++ [Call.IsStateRootValid batch.StateRoot]) = .error err →
        (AggregatorNode.replayBatch gw hs ag lc input).2.accountsTrie = ag.accountsTrie)) ∧
    (∀ (gw : OptimisticSContract) (hs : TrieHasher) (v : ChallengerNode)
        (lc : AggregatorNode.ReplayLocals) (input : SolidityBatch) (batch : Batch),
      input.ToGolangFormat = .ok batch →
      gw.IsStateRootValid v.calls batch.StateRoot = .ok false →
      (∀ head, gw.GetStateRoot (v.calls ++ [Call.IsStateRootValid batch.StateRoot]) = .ok head →
        (∀ t1, input.StateRoot = head →
          replayInOrder (depositLoop v.accountsTrie lc.pendingDeposits).2
            batch.Transactions = .ok t1 →
          (ChallengerNode.replayBatch gw hs v lc input).2.accountsTrie = t1) ∧
        (∀ err, input.StateRoot = head →
          replayInOrder (depositLoop v.accountsTrie lc.pendingDeposits).2
            batch.Transactions = .error err →
          (ChallengerNode.replayBatch gw hs v lc input).2.accountsTrie =
            (depositLoop v.accountsTrie lc.pendingDeposits).2) ∧
        (input.StateRoot ≠ head →
          (ChallengerNode.replayBatch gw hs v lc input).2.accountsTrie =
            (depositLoop v.accountsTrie lc.pendingDeposits).2)) ∧
      (∀ err, gw.GetStateRoot (v.calls ++ [Call.IsStateRootValid batch.StateRoot]) = .error err →
        (ChallengerNode.replayBatch gw hs v lc input).2.accountsTrie = v.accountsTrie)) ∧
    (∀ hs : TrieHasher,
      ((AggregatorNode.replayBatch (scriptedContract [] false 9) hs freshAggregator
          (localsWithDeposit 50) transferBatch).2.accountsTrie 1 =
          some { Balance := 40, Nonce := 1 } ∧
        (AggregatorNode.replayBatch (scriptedContract [] false 9) hs freshAggregator
          (localsWithDeposit 50) transferBatch).2.accountsTrie 2 =
          some { Balance := 10, Nonce := 0 }) ∧
      ((AggregatorNode.replayBatch (scriptedContract [] false 7) hs freshAggregator
          (localsWithDeposit 50) transferBatch).2.accountsTrie 1 =
          some { Balance := 50, Nonce := 0 } ∧
        (AggregatorNode.replayBatch (scriptedContract [] false 7) hs freshAggregator
          (localsWithDeposit 50) transferBatch).2.accountsTrie 2 = none) ∧
      ((AggregatorNode.replayBatch (scriptedContract [] false 9) hs freshAggregator
          (localsWithDeposit 10) overdrawBatch).2.accountsTrie 1 =
          some { Balance := 10, Nonce := 0 } ∧
        (AggregatorNode.replayBatch (scriptedContract [] false 9) hs freshAggregator
          (localsWithDeposit 10) overdrawBatch).2.accountsTrie 2 = none ∧
        (AggregatorNode.replayBatch (scriptedContract [] false 9) hs freshAggregator
          (localsWithDeposit 10) overdrawBatch).1 = .error (Err.InvalidBalance 1)) ∧
      ((ChallengerNode.replayBatch (scriptedContract [] false 9) hs freshChallenger
          (localsWithDeposit 50) transferBatch).2.accountsTrie 1 =
          some { Balance := 40, Nonce := 1 } ∧
        (ChallengerNode.replayBatch (scriptedContract [] false 9) hs freshChallenger
          (localsWithDeposit 50) transferBatch).2.accountsTrie 2 =
          some { Balance := 10, Nonce := 0 }) ∧
      ((ChallengerNode.replayBatch (scriptedContract [] false 7) hs freshChallenger
          (localsWithDeposit 50) transferBatch).2.accountsTrie 1 =
          some { Balance := 50, Nonce := 0 } ∧
        (ChallengerNode.replayBatch (scriptedContract [] false 7) hs freshChallenger
          (localsWithDeposit 50) transferBatch).2.accountsTrie 2 = none) ∧
      ((ChallengerNode.replayBatch (scriptedContract [] false 9) hs freshChallenger
          (localsWithDeposit 10) overdrawBatch).2.accountsTrie 1 =
          some { Balance := 10, Nonce := 0 } ∧
        (ChallengerNode.replayBatch (scriptedContract [] false 9) hs freshChallenger
          (localsWithDeposit 10) overdrawBatch).2.accountsTrie 2 = none)) := by
  refine ⟨?_, ?_, ?_⟩
  · intro gw hs ag lc input batch hdec hvalid
    refine ⟨fun head hhead => ⟨?_, ?_, ?_⟩, ?_⟩
    · intro t1 hh hok
      have hc := copyLoop_of_replayInOrder_ok _ _ _ hok
      rw [AggregatorNode.replayBatch_applied gw hs ag lc input batch false head hdec hvalid hhead
        (Or.inr ⟨hh, by rw [hc]⟩)]
      have hcopy := txLoop_copyLoop hs lc.stateRoot
        (drained ag.accountsTrie lc.pendingDeposits ag.pendingWithdraws) batch.Transactions
      rw [hc] at hcopy
      rcases hres : txLoop hs lc.stateRoot
        (drained ag.accountsTrie lc.pendingDeposits ag.pendingWithdraws)
        batch.Transactions with ⟨e, st⟩
      rw [hres] at hcopy
      cases e <;> exact hcopy.2
    · intro err hh herr
      rw [AggregatorNode.replayBatch_rejected gw hs ag lc input batch head err hdec hvalid
        hhead hh (copyLoop_of_replayInOrder_error _ _ _ herr)]
      exact ⟨rfl, rfl⟩
    · intro hh
      rw [AggregatorNode.replayBatch_skipped gw hs ag lc input batch head hdec hvalid hhead hh]
      rfl
    · intro err herr
      unfold AggregatorNode.replayBatch
      simp only [hdec, hvalid, herr]
  · intro gw hs v lc input batch hdec hvalid
    refine ⟨fun head hhead => ⟨?_, ?_, ?_⟩, ?_⟩
    · intro t1 hh hok
      have hc := copyLoop_of_replayInOrder_ok _ _ _ hok
      rw [ChallengerNode.batchArm_applied gw hs v lc input batch false head hdec hvalid hhead
        (Or.inr ⟨hh, by rw [hc]⟩)]
      have hcopy := txLoop_copyLoop hs lc.stateRoot
        (depositLoop v.accountsTrie lc.pendingDeposits).2 batch.Transactions
      rw [hc] at hcopy
      rcases hres : txLoop hs lc.stateRoot
        (depositLoop v.accountsTrie lc.pendingDeposits).2 batch.Transactions with ⟨e, st⟩
      rw [hres] at hcopy
      cases e <;> exact hcopy.2
    · intro err hh herr
      obtain ⟨result, hres⟩ := ChallengerNode.batchArm_rejected gw hs v lc input batch head
        err hdec hvalid hhead hh (copyLoop_of_replayInOrder_error _ _ _ herr)
      rw [hres]
      rfl
    · intro hh
      rw [ChallengerNode.batchArm_skipped gw hs v lc input batch head hdec hvalid hhead hh]
      rfl
    · intro err herr
      unfold ChallengerNode.replayBatch
      simp only [hdec, hvalid, herr]
  · intro hs
    refine ⟨⟨rfl, rfl⟩, ⟨rfl, rfl⟩, ⟨rfl, rfl, rfl⟩, ⟨rfl, rfl⟩, ⟨rfl, rfl⟩, ?_⟩
    obtain ⟨result, hres⟩ := ChallengerNode.batchArm_rejected (scriptedContract [] false 9) hs
      freshChallenger (localsWithDeposit 10) overdrawBatch
      { PrevStateRoot := 0, StateRoot := 9,
        Transactions := [transfer 1 2 5, transfer 1 2 50] }
      9 (Err.InvalidBalance 1) rfl rfl rfl rfl rfl
    rw [hres]
    exact ⟨rfl, rfl⟩

/-- C3 at a head batch inside the challenge window that moves 10 from A to B after a deposit
of 50 to A: the replay in order succeeds, so the real trie of the Aggregator takes the
transfer and holds A = (40, 1), B = (10, 0). -/
theorem C3_invalid_batch_applied_iff_head_and_copy_ok_witness :
    (AggregatorNode.replayBatch (scriptedContract [] false 9) sampleHasher freshAggregator
        (localsWithDeposit 50) transferBatch).2.accountsTrie 1 =
      some { Balance := 40, Nonce := 1 } ∧
    (AggregatorNode.replayBatch (scriptedContract [] false 9) sampleHasher freshAggregator
        (localsWithDeposit 50) transferBatch).2.accountsTrie 2 =
      some { Balance := 10, Nonce := 0 } := by
  have h := ((C3_invalid_batch_applied_iff_head_and_copy_ok.1 (scriptedContract [] false 9)
    sampleHasher freshAggregator (localsWithDeposit 50) transferBatch
    { PrevStateRoot := 0, StateRoot := 9, Transactions := [transfer 1 2 10] }
    rfl rfl).1 9 rfl).1
    (resultTrie (replayInOrder (drained emptyTrie [{ From := 1, Value := 50 }] [])
      [transfer 1 2 10])) rfl rfl
  exact ⟨(congrFun h 1).trans (by decide), (congrFun h 2).trans (by decide)⟩

/-- C4 on the code: on a stream whose head batch, not yet valid, overdraws A at its second
transaction, the pass of the Challenger makes three calls on the contract, none of them
`FraudProof`; it asks for the proof on the trie of the node, in which B is absent and A still
holds 10 (the copy holds A = 5, B = 5 at that point), and it returns no error when that
proof is built. -/
theorem C4_no_fraud_proof_call :
    ∀ (hs : TrieHasher),
      (ChallengerNode.computeAccountsTrie (scriptedContract fraudStream false 9) hs
        freshChallenger).2.calls =
        [Call.GetOnChainData, Call.IsStateRootValid 9, Call.GetStateRoot] ∧
      ((ChallengerNode.computeAccountsTrie (scriptedContract fraudStream false 9) hs
        freshChallenger).2.calls.any Call.isFraudProof) = false ∧
      (ChallengerNode.computeAccountsTrie (scriptedContract fraudStream false 9) hs
        freshChallenger).2.accountsTrie 1 = some { Balance := 10, Nonce := 0 } ∧
      (ChallengerNode.computeAccountsTrie (scriptedContract fraudStream false 9) hs
        freshChallenger).2.accountsTrie 2 = none ∧
      (ChallengerNode.computeAccountsTrie (scriptedContract fraudStream false 9) hs
        freshChallenger).1 =
        (match hs.NewProve (ChallengerNode.computeAccountsTrie
            (scriptedContract fraudStream false 9) hs freshChallenger).2.accountsTrie 1 with
          | .error err => .error err
          | .ok _ => .ok zeroHash) := by
  intro hs
  have key := ChallengerNode.batchArm_fraud (scriptedContract fraudStream false 9) hs
    { accountsTrie := emptyTrie, calls := [Call.GetOnChainData] }
    { stateRoot := zeroHash, pendingDeposits := [{ From := 1, Value := 10 }] }
    { PrevStateRoot := 0, StateRoot := 9,
      Transactions := some [transfer 1 2 5, transfer 1 2 50] }
    { PrevStateRoot := 0, StateRoot := 9, Transactions := [transfer 1 2 5, transfer 1 2 50] }
    9 1 rfl rfl rfl rfl rfl
  have hpass : ChallengerNode.computeAccountsTrie (scriptedContract fraudStream false 9) hs
      freshChallenger =
      (match ChallengerNode.replayBatch (scriptedContract fraudStream false 9) hs
          { accountsTrie := emptyTrie, calls := [Call.GetOnChainData] }
          { stateRoot := zeroHash, pendingDeposits := [{ From := 1, Value := 10 }] }
          { PrevStateRoot := 0, StateRoot := 9,
            Transactions := some [transfer 1 2 5, transfer 1 2 50] } with
        | (ChallengerNode.Flow.ret result, v1) => (result, v1)
        | (ChallengerNode.Flow.next lc1, v1) =>
          ChallengerNode.replayLoop (scriptedContract fraudStream false 9) hs v1 lc1 []) := rfl
  rw [hpass, key]
  exact ⟨rfl, rfl, rfl, rfl, rfl⟩

/-- C5 on the code: the Aggregator queues a Withdraw event and goes on with the stream, but
the loop of the Challenger has no arm for it: at a Withdraw event the pass of the Challenger
returns the error of its `default` arm and reads no further event. -/
theorem C5_challenger_aborts_on_withdraw :
    (∀ (gw : OptimisticSContract) (hs : TrieHasher) (ag : AggregatorNode)
        (lc : AggregatorNode.ReplayLocals) (w : Withdraw) (rest : List Event),
      AggregatorNode.replayLoop gw hs ag lc (Event.Withdraw w :: rest) =
        AggregatorNode.replayLoop gw hs
          { ag with pendingWithdraws := ag.pendingWithdraws ++ [w] } lc rest) ∧
    (∀ (gw : OptimisticSContract) (hs : TrieHasher) (v : ChallengerNode)
        (lc : AggregatorNode.ReplayLocals) (w : Withdraw) (rest : List Event),
      ChallengerNode.replayLoop gw hs v lc (Event.Withdraw w :: rest) =
        (.error (Err.Msg "There was an error while fetching onChain data"), v)) ∧
    (∀ (hs : TrieHasher),
      (ChallengerNode.computeAccountsTrie
        (scriptedContract [Event.Withdraw { From := 1, Value := 5 }] true 9) hs
        freshChallenger).1 =
        .error (Err.Msg "There was an error while fetching onChain data")) := by
  refine ⟨?_, ?_, ?_⟩
  · intro gw hs ag lc w rest
    simp [AggregatorNode.replayLoop]
  · intro gw hs v lc w rest
    simp [ChallengerNode.replayLoop]
  · intro hs
    rfl

/-- C6: when `computeAccountsTrie` of the Aggregator ends without error, the stream splits
into a first part that is empty or ends with a Batch event and a rest without Batch events;
the returned deposit list is the list of the Deposit events of the rest, in stream order, and
the trie is the one the pass reaches at the end of the first part, so none of the returned
deposits has been applied. -/
theorem C6_residual_deposits (gw : OptimisticSContract) (hs : TrieHasher)
    (ag ag1 : AggregatorNode) (root : Hash) (deps : List Deposit)
    (h : AggregatorNode.computeAccountsTrie gw hs ag = (.ok (root, deps), ag1)) :
    ∃ pre post, gw.GetOnChainData ag.calls = pre ++ post ∧
      (∀ e ∈ post, Event.isBatch e = false) ∧
      (pre = [] ∨ ∃ pre0 b, pre = pre0 ++ [Event.Batch b]) ∧
      deps = depositsOf post ∧
      ag1.accountsTrie =
        (AggregatorNode.replayLoop gw hs { ag with calls := ag.calls ++ [Call.GetOnChainData] }
          { stateRoot := zeroHash, pendingDeposits := [] } pre).2.accountsTrie := by
  unfold AggregatorNode.computeAccountsTrie at h
  obtain ⟨pre, post, hev, hpost, hpre, hdeps, htrie⟩ :=
    AggregatorNode.replayLoop_residual gw hs _ _ ag1 _ root deps h
  refine ⟨pre, post, hev, hpost, hpre, ?_, htrie⟩
  rw [hdeps]
  by_cases hnil : pre = [] <;> simp [hnil]

/-- C6 at a stream with one deposit before and one after its only batch. -/
theorem C6_residual_deposits_witness :
    ∃ pre post, residualStream = pre ++ post ∧
      (∀ e ∈ post, Event.isBatch e = false) ∧
      (pre = [] ∨ ∃ pre0 b, pre = pre0 ++ [Event.Batch b]) ∧
      [({ From := 2, Value := 7 } : Deposit)] = depositsOf post ∧
      (AggregatorNode.computeAccountsTrie (scriptedContract residualStream true 9) sampleHasher
          freshAggregator).2.accountsTrie =
        (AggregatorNode.replayLoop (scriptedContract residualStream true 9) sampleHasher
          { freshAggregator with calls := freshAggregator.calls ++ [Call.GetOnChainData] }
          { stateRoot := zeroHash, pendingDeposits := [] } pre).2.accountsTrie :=
  C6_residual_deposits (scriptedContract residualStream true 9) sampleHasher freshAggregator
    (AggregatorNode.computeAccountsTrie (scriptedContract residualStream true 9) sampleHasher
      freshAggregator).2 zeroHash [{ From := 2, Value := 7 }] rfl

/-- C8: `sendBatch` returns nil only after a `NewBatch` call that succeeded, and then the
transaction buffer is empty; whenever it returns an error, the buffer is the one it had
before the call. -/
theorem C8_sendBatch_buffer (gw : OptimisticSContract) (hs : TrieHasher) (ag : AggregatorNode) :
    ((AggregatorNode.sendBatch gw hs ag).1 = none →
      ∃ log b opts, (AggregatorNode.sendBatch gw hs ag).2.calls = log ++ [Call.NewBatch b opts] ∧
        gw.NewBatch log b opts = .ok () ∧
        (AggregatorNode.sendBatch gw hs ag).2.transactions = []) ∧
    (∀ err, (AggregatorNode.sendBatch gw hs ag).1 = some err →
      (AggregatorNode.sendBatch gw hs ag).2.transactions = ag.transactions) := by
  unfold AggregatorNode.sendBatch AggregatorNode.onChainStateRoot
  cases hg : gw.GetStateRoot ag.calls with
  | error e => simp
  | ok prev =>
    simp only
    rcases hp : AggregatorNode.applyPending
      { ag with calls := ag.calls ++ [Call.GetStateRoot] } with ⟨e, t3⟩
    cases e with
    | some err => simp
    | none =>
      simp only
      cases ho : gw.PrepareTxOptions (ag.calls ++ [Call.GetStateRoot]) 0 2 2 with
      | error e => simp
      | ok opts =>
        simp only
        cases hn : gw.NewBatch (ag.calls ++ [Call.GetStateRoot] ++ [Call.PrepareTxOptions 0 2 2])
          (Batch.SolidityFormat { PrevStateRoot := prev, StateRoot := hs.StateRoot t3,
                                  Transactions := ag.transactions }) opts with
        | error e => simp
        | ok u =>
          simp only [true_implies, reduceCtorEq, false_implies, implies_true, and_true]
          exact ⟨_, _, _, rfl, hn⟩

/-- C8 on a fresh Aggregator and a contract that accepts every call: `sendBatch` returns nil,
its last call is the accepted `NewBatch`, and the buffer is empty. -/
theorem C8_sendBatch_buffer_witness :
    ∃ log b opts,
      (AggregatorNode.sendBatch (scriptedContract [] true 9) sampleHasher
        freshAggregator).2.calls = log ++ [Call.NewBatch b opts] ∧
      (scriptedContract [] true 9).NewBatch log b opts = .ok () ∧
      (AggregatorNode.sendBatch (scriptedContract [] true 9) sampleHasher
        freshAggregator).2.transactions = [] :=
  (C8_sendBatch_buffer (scriptedContract [] true 9) sampleHasher freshAggregator).1 rfl

/-- C9: a batch that `sendBatch` passes to `NewBatch` has as `PrevStateRoot` the on-chain
root read at the start of the call, as `StateRoot` the root of the trie after the pending
deposits, then the pending withdraws, then the buffered transactions were applied in order,
and as `Transactions` the buffer. -/
theorem C9_batch_contents (gw : OptimisticSContract) (hs : TrieHasher) (ag : AggregatorNode)
    (b : SolidityBatch) (opts : TxOpts)
    (h : Call.NewBatch b opts ∈
      (AggregatorNode.sendBatch gw hs ag).2.calls.drop ag.calls.length) :
    ∃ prev t1 t2 t3, gw.GetStateRoot ag.calls = .ok prev ∧
      forRange (onTrie fun t (d : Deposit) => AggregatorNode.addFunds t d.From d.Value)
        ag.accountsTrie ag.pendingDeposits = (none, t1) ∧
      forRange (onTrie fun t (w : Withdraw) => AggregatorNode.removeFunds t w.From w.Value)
        t1 ag.pendingWithdraws = (none, t2) ∧
      forRange (onTrie AggregatorNode.maliciousProcessTx) t2 ag.transactions = (none, t3) ∧
      b = Batch.SolidityFormat
        { PrevStateRoot := prev, StateRoot := hs.StateRoot t3, Transactions := ag.transactions } := by
  unfold AggregatorNode.sendBatch AggregatorNode.onChainStateRoot at h
  cases hg : gw.GetStateRoot ag.calls with
  | error e => simp [hg] at h
  | ok prev =>
    simp only [hg, AggregatorNode.applyPending] at h
    rcases h1 : forRange (onTrie fun t (d : Deposit) => AggregatorNode.addFunds t d.From d.Value)
      ag.accountsTrie ag.pendingDeposits with ⟨e1, t1⟩
    rw [h1] at h
    cases e1 with
    | some err => simp at h
    | none =>
      simp only at h
      rcases h2 : forRange
        (onTrie fun t (w : Withdraw) => AggregatorNode.removeFunds t w.From w.Value)
        t1 ag.pendingWithdraws with ⟨e2, t2⟩
      rw [h2] at h
      cases e2 with
      | some err => simp at h
      | none =>
        simp only at h
        rcases h3 : forRange (onTrie AggregatorNode.maliciousProcessTx) t2 ag.transactions
          with ⟨e3, t3⟩
        rw [h3] at h
        cases e3 with
        | some err => simp at h
        | none =>
          simp only at h
          refine ⟨prev, t1, t2, t3, rfl, rfl, h2, h3, ?_⟩
          cases ho : gw.PrepareTxOptions (ag.calls ++ [Call.GetStateRoot]) 0 2 2 with
          | error e => simp [ho] at h
          | ok txOpts =>
            simp only [ho] at h
            cases hn : gw.NewBatch
              (ag.calls ++ [Call.GetStateRoot] ++ [Call.PrepareTxOptions 0 2 2])
              (Batch.SolidityFormat { PrevStateRoot := prev, StateRoot := hs.StateRoot t3,
                                      Transactions := ag.transactions }) txOpts with
            | error e =>
              simp only [hn] at h
              simp at h
              exact h.1
            | ok u =>
              simp only [hn] at h
              simp at h
              exact h.1

/-- C9 on an Aggregator with a pending deposit, a pending withdraw and one buffered transfer:
the submitted batch carries the on-chain root 9, the root of the trie in which A holds 35, and
the buffer. -/
theorem C9_batch_contents_witness :
    ∃ prev t1 t2 t3, (scriptedContract [] true 9).GetStateRoot loadedAggregator.calls = .ok prev ∧
      forRange (onTrie fun t (d : Deposit) => AggregatorNode.addFunds t d.From d.Value)
        loadedAggregator.accountsTrie loadedAggregator.pendingDeposits = (none, t1) ∧
      forRange (onTrie fun t (w : Withdraw) => AggregatorNode.removeFunds t w.From w.Value)
        t1 loadedAggregator.pendingWithdraws = (none, t2) ∧
      forRange (onTrie AggregatorNode.maliciousProcessTx) t2 loadedAggregator.transactions =
        (none, t3) ∧
      ({ PrevStateRoot := 9, StateRoot := 37,
         Transactions := some [transfer 1 2 10] } : SolidityBatch) =
        Batch.SolidityFormat
          { PrevStateRoot := prev, StateRoot := sampleHasher.StateRoot t3,
            Transactions := loadedAggregator.transactions } :=
  C9_batch_contents (scriptedContract [] true 9) sampleHasher loadedAggregator
    { PrevStateRoot := 9, StateRoot := 37, Transactions := some [transfer 1 2 10] } 0
    (by decide)

/-- C10: `Synced` of either node returns (true, nil) after its single `GetStateRoot` call,
without reading the chain, when the on-chain root is the root of the local trie; when the
two roots differ it runs one replay pass (one `GetOnChainData` call) and returns (true, nil)
exactly when the pass returns no error and its root is the on-chain root, and false with an
error otherwise; it never returns (false, nil). -/
theorem C10_synced :
    (∀ (gw : OptimisticSContract) (hs : TrieHasher) (ag : AggregatorNode),
      (∀ h, gw.GetStateRoot ag.calls = .ok h → h = hs.StateRoot ag.accountsTrie →
        AggregatorNode.Synced gw hs ag =
          ((true, none), { ag with calls := ag.calls ++ [Call.GetStateRoot] })) ∧
      (∀ h, gw.GetStateRoot ag.calls = .ok h → h ≠ hs.StateRoot ag.accountsTrie →
        (AggregatorNode.Synced gw hs ag).1 =
          (match (AggregatorNode.computeAccountsTrie gw hs
              { ag with calls := ag.calls ++ [Call.GetStateRoot] }).1 with
            | .ok (root, _) =>
              if root = h then (true, none)
              else (false, some (Err.Msg "Aggregator was not able to compute a valid StateRoot"))
            | .error err => (false, some err)) ∧
        (AggregatorNode.Synced gw hs ag).2.calls =
          (AggregatorNode.computeAccountsTrie gw hs
            { ag with calls := ag.calls ++ [Call.GetStateRoot] }).2.calls ∧
        (AggregatorNode.Synced gw hs ag).2.accountsTrie =
          (AggregatorNode.computeAccountsTrie gw hs
            { ag with calls := ag.calls ++ [Call.GetStateRoot] }).2.accountsTrie ∧
        List.countP Call.isGetOnChainData (AggregatorNode.Synced gw hs ag).2.calls =
          List.countP Call.isGetOnChainData ag.calls + 1) ∧
      ((AggregatorNode.Synced gw hs ag).1 = (true, none) ∨
        ∃ err, (AggregatorNode.Synced gw hs ag).1 = (false, some err))) ∧
    (∀ (gw : OptimisticSContract) (hs : TrieHasher) (v : ChallengerNode),
      (∀ h, gw.GetStateRoot v.calls = .ok h → h = hs.StateRoot v.accountsTrie →
        ChallengerNode.Synced gw hs v =
          ((true, none), { v with calls := v.calls ++ [Call.GetStateRoot] })) ∧
      (∀ h, gw.GetStateRoot v.calls = .ok h → h ≠ hs.StateRoot v.accountsTrie →
        ChallengerNode.Synced gw hs v =
          (match (ChallengerNode.computeAccountsTrie gw hs
              { v with calls := v.calls ++ [Call.GetStateRoot] }).1 with
            | .ok root =>
              if root = h then (true, none)
              else (false, some (Err.Msg "Aggregator was not able to compute a valid StateRoot"))
            | .error err => (false, some err),
           (ChallengerNode.computeAccountsTrie gw hs
              { v with calls := v.calls ++ [Call.GetStateRoot] }).2) ∧
        List.countP Call.isGetOnChainData (ChallengerNode.Synced gw hs v).2.calls =
          List.countP Call.isGetOnChainData v.calls + 1) ∧
      ((ChallengerNode.Synced gw hs v).1 = (true, none) ∨
        ∃ err, (ChallengerNode.Synced gw hs v).1 = (false, some err))) := by
  constructor
  · intro gw hs ag
    refine ⟨?_, ?_, ?_⟩
    · intro h hg heq
      simp [AggregatorNode.Synced, AggregatorNode.onChainStateRoot, hg, heq]
    · intro h hg hne
      obtain ⟨extra, hc, hx⟩ := AggregatorNode.computeAccountsTrie_calls gw hs
        { ag with calls := ag.calls ++ [Call.GetStateRoot] }
      have hcount : List.countP Call.isGetOnChainData
          (AggregatorNode.computeAccountsTrie gw hs
            { ag with calls := ag.calls ++ [Call.GetStateRoot] }).2.calls =
          List.countP Call.isGetOnChainData ag.calls + 1 := by
        rw [hc]
        simp [List.countP_append, List.countP_cons, Call.isGetOnChainData,
          countP_isGetOnChainData_batchArm extra hx]
      simp only [AggregatorNode.Synced, AggregatorNode.onChainStateRoot, hg, hne, if_false]
      rcases hp : AggregatorNode.computeAccountsTrie gw hs
        { ag with calls := ag.calls ++ [Call.GetStateRoot] } with ⟨r, ag2⟩
      rw [hp] at hcount
      cases r with
      | error err => exact ⟨rfl, rfl, rfl, hcount⟩
      | ok res =>
        obtain ⟨root, deps⟩ := res
        by_cases hr : root = h
        · simp [hr]
          exact hcount
        · simp [hr]
          exact hcount
    · simp only [AggregatorNode.Synced, AggregatorNode.onChainStateRoot]
      cases hg : gw.GetStateRoot ag.calls with
      | error err => exact Or.inr ⟨err, rfl⟩
      | ok h =>
        simp only
        by_cases heq : h = hs.StateRoot ag.accountsTrie
        · simp [heq]
        · simp only [heq, if_false]
          rcases AggregatorNode.computeAccountsTrie gw hs
            { ag with calls := ag.calls ++ [Call.GetStateRoot] } with ⟨r, ag2⟩
          cases r with
          | error err => exact Or.inr ⟨err, rfl⟩
          | ok res =>
            obtain ⟨root, deps⟩ := res
            by_cases hr : root = h <;> simp [hr]
  · intro gw hs v
    refine ⟨?_, ?_, ?_⟩
    · intro h hg heq
      simp [ChallengerNode.Synced, hg, heq]
    · intro h hg hne
      obtain ⟨extra, hc, hx⟩ := ChallengerNode.pass_calls gw hs
        { v with calls := v.calls ++ [Call.GetStateRoot] }
      have hcount : List.countP Call.isGetOnChainData
          (ChallengerNode.computeAccountsTrie gw hs
            { v with calls := v.calls ++ [Call.GetStateRoot] }).2.calls =
          List.countP Call.isGetOnChainData v.calls + 1 := by
        rw [hc]
        simp [List.countP_append, List.countP_cons, Call.isGetOnChainData,
          countP_isGetOnChainData_batchArm extra hx]
      simp only [ChallengerNode.Synced, hg, hne, if_false]
      rcases hp : ChallengerNode.computeAccountsTrie gw hs
        { v with calls := v.calls ++ [Call.GetStateRoot] } with ⟨r, v2⟩
      rw [hp] at hcount
      cases r with
      | error err => exact ⟨rfl, hcount⟩
      | ok root =>
        by_cases hr : root = h
        · simp [hr]
          exact hcount
        · simp [hr]
          exact hcount
    · simp only [ChallengerNode.Synced]
      cases hg : gw.GetStateRoot v.calls with
      | error err => exact Or.inr ⟨err, rfl⟩
      | ok h =>
        simp only
        by_cases heq : h = hs.StateRoot v.accountsTrie
        · simp [heq]
        · simp only [heq, if_false]
          rcases ChallengerNode.computeAccountsTrie gw hs
            { v with calls := v.calls ++ [Call.GetStateRoot] } with ⟨r, v2⟩
          cases r with
          | error err => exact Or.inr ⟨err, rfl⟩
          | ok root => by_cases hr : root = h <;> simp [hr]

/-- C10 on a fresh Aggregator behind the chain: the on-chain root 42 is not the root of the
empty trie, one pass over the deposit-before-batch stream computes 42, and `Synced` returns
(true, nil). -/
theorem C10_synced_witness :
    (AggregatorNode.Synced (scriptedContract precedenceStream true 42) sampleHasher
      freshAggregator).1 = (true, none) :=
  ((C10_synced.1 (scriptedContract precedenceStream true 42) sampleHasher freshAggregator).2.1
    42 rfl (by decide)).1.trans rfl

/-- C7 as stated fails: on a fresh Aggregator whose trie is in sync with the chain, with a
contract that accepts every call, 502 transfers from an address that has no account make no
`NewBatch` call at all; the 502nd call returns `AccountNotFound` from `maliciousProcessTx`. -/
theorem C7_counterexample :
    idleContract.alwaysSucceeds ∧
    freshAggregator.transactions = [] ∧
    orphanTransfers.length = MAX_TRANSACTIONS_BATCH ∧
    (AggregatorNode.Synced idleContract sampleHasher
      { freshAggregator with transactions := orphanTransfers }).1 = (true, none) ∧
    List.countP Call.isNewBatch
      (AggregatorNode.receiveAll idleContract sampleHasher freshAggregator
        orphanTransfers).2.calls = 0 ∧
    (AggregatorNode.receiveAll idleContract sampleHasher freshAggregator orphanTransfers).1 =
      List.replicate 501 (AggregatorNode.Outcome.returned none) ++
        [AggregatorNode.Outcome.returned (some (Err.AccountNotFound 1))] := by
  have hsplit : orphanTransfers = List.replicate 501 (transfer 1 2 1) ++ [transfer 1 2 1] := by
    unfold orphanTransfers
    exact List.replicate_succ' 501 _
  have hhead : ([] : List Transaction) ++ List.replicate 501 (transfer 1 2 1) ++ [transfer 1 2 1]
      = transfer 1 2 1 :: (List.replicate 500 (transfer 1 2 1) ++ [transfer 1 2 1]) := rfl
  have hsync : ∀ txs : List Transaction,
      AggregatorNode.Synced idleContract sampleHasher { freshAggregator with transactions := txs }
        = ((true, none), { freshAggregator with transactions := txs,
                                                 calls := [Call.GetStateRoot] }) := by
    intro txs
    rfl
  have hpend : ∀ rest : List Transaction,
      AggregatorNode.applyPending
        { freshAggregator with transactions := transfer 1 2 1 :: rest,
                               calls := [Call.GetStateRoot] } =
        (some (Err.AccountNotFound 1), emptyTrie) := by
    intro rest
    rfl
  have hlast : AggregatorNode.ReceiveTransaction idleContract sampleHasher
      { freshAggregator with
        transactions := freshAggregator.transactions ++ List.replicate 501 (transfer 1 2 1) }
      (transfer 1 2 1) =
      (AggregatorNode.Outcome.returned (some (Err.AccountNotFound 1)),
       { freshAggregator with
         transactions := transfer 1 2 1 ::
           (List.replicate 500 (transfer 1 2 1) ++ [transfer 1 2 1]),
         calls := [Call.GetStateRoot] ++ [Call.GetStateRoot] }) := by
    rw [AggregatorNode.receive_at_threshold _ _ _ _ (by
      show (List.replicate 501 (transfer 1 2 1)).length + 1 = 502
      rw [List.length_replicate])]
    show (match AggregatorNode.Synced idleContract sampleHasher
      { freshAggregator with
        transactions := [] ++ List.replicate 501 (transfer 1 2 1) ++ [transfer 1 2 1] } with
      | ((true, _), ag2) =>
        match AggregatorNode.sendBatch idleContract sampleHasher ag2 with
        | (some err, ag3) => (AggregatorNode.Outcome.returned (some err), ag3)
        | (none, ag3) => (AggregatorNode.Outcome.returned none, ag3)
      | ((false, err), ag2) => (AggregatorNode.Outcome.fatal err, ag2)) = _
    rw [hhead, hsync]
    simp only
    rw [AggregatorNode.sendBatch_pending_error idleContract sampleHasher _ 1 emptyTrie
      (Err.AccountNotFound 1) rfl (hpend _)]
    rfl
  have hlt : freshAggregator.transactions.length +
      (List.replicate 501 (transfer 1 2 1)).length < MAX_TRANSACTIONS_BATCH := by
    rw [List.length_replicate]
    decide
  refine ⟨?_, rfl, ?_, ?_, ?_, ?_⟩
  · refine ⟨fun _ => ⟨1, rfl⟩, fun _ _ => ⟨true, rfl⟩, ?_, fun _ _ _ _ => ⟨0, rfl⟩,
      fun _ _ _ => rfl⟩
    intro log e he
    exact absurd he (List.not_mem_nil e)
  · unfold orphanTransfers
    rw [List.length_replicate]
    rfl
  · rw [hsync]
  · rw [hsplit, AggregatorNode.receiveAll_below _ _ _ _ _ hlt]
    simp only [AggregatorNode.receiveAll, hlast]
    rfl
  · rw [hsplit, AggregatorNode.receiveAll_below _ _ _ _ _ hlt]
    simp only [AggregatorNode.receiveAll, hlast, List.length_replicate]

/-- C7 as amended: starting from an empty buffer, with a contract that accepts every call,
`Synced` answering true at the threshold and no error from `addFunds`, `removeFunds` and
`maliciousProcessTx` while the batch is built, the first 501 calls of `ReceiveTransaction`
only fill the buffer and leave the call log alone, every call returns nil, and the 502nd call
adds to the log, after the calls of `Synced`, one `GetStateRoot`, one `PrepareTxOptions` and
one `NewBatch` call whose batch carries the 502 transactions in submission order; it is the
only `NewBatch` call, and the buffer is empty afterwards. -/
theorem C7_threshold_commit (gw : OptimisticSContract) (hs : TrieHasher) (ag : AggregatorNode)
    (txs : List Transaction)
    (hempty : ag.transactions = [])
    (hlen : txs.length = MAX_TRANSACTIONS_BATCH)
    (hgw : gw.alwaysSucceeds)
    (hsync : (AggregatorNode.Synced gw hs { ag with transactions := txs }).1 = (true, none))
    (hpend : (AggregatorNode.applyPending
      (AggregatorNode.Synced gw hs { ag with transactions := txs }).2).1 = none) :
    AggregatorNode.receiveAll gw hs ag (txs.take 501) =
      (List.replicate 501 (AggregatorNode.Outcome.returned none),
       { ag with transactions := txs.take 501 }) ∧
    (AggregatorNode.receiveAll gw hs ag txs).1 =
      List.replicate 502 (AggregatorNode.Outcome.returned none) ∧
    (∃ prev opts, (AggregatorNode.receiveAll gw hs ag txs).2.calls =
      (AggregatorNode.Synced gw hs { ag with transactions := txs }).2.calls ++
        [Call.GetStateRoot, Call.PrepareTxOptions 0 2 2,
         Call.NewBatch (Batch.SolidityFormat
           { PrevStateRoot := prev,
             StateRoot := hs.StateRoot (AggregatorNode.applyPending
               (AggregatorNode.Synced gw hs { ag with transactions := txs }).2).2,
             Transactions := txs }) opts]) ∧
    List.countP Call.isNewBatch (AggregatorNode.receiveAll gw hs ag txs).2.calls =
      List.countP Call.isNewBatch ag.calls + 1 ∧
    (AggregatorNode.receiveAll gw hs ag txs).2.transactions = [] := by
  obtain ⟨transactions, pd, pw, trie, calls⟩ := ag
  simp only at hempty
  subst hempty
  rcases List.eq_nil_or_concat txs with hnil | ⟨pre, x, hcat⟩
  · subst hnil
    exact absurd hlen (by decide)
  rw [List.concat_eq_append] at hcat
  subst hcat
  have hprelen : pre.length = 501 := by
    simp only [List.length_append, List.length_singleton, MAX_TRANSACTIONS_BATCH] at hlen
    omega
  have hlt : ([] : List Transaction).length + pre.length < MAX_TRANSACTIONS_BATCH := by
    simp only [List.length_nil, MAX_TRANSACTIONS_BATCH]
    omega
  have hthr : ([] ++ pre : List Transaction).length + 1 = MAX_TRANSACTIONS_BATCH := by
    simp only [List.nil_append, MAX_TRANSACTIONS_BATCH]
    omega
  have hfirst := AggregatorNode.receiveAll_below gw hs pre []
    { transactions := [], pendingDeposits := pd, pendingWithdraws := pw, accountsTrie := trie,
      calls := calls } hlt
  have hall := AggregatorNode.receiveAll_below gw hs pre [x]
    { transactions := [], pendingDeposits := pd, pendingWithdraws := pw, accountsTrie := trie,
      calls := calls } hlt
  have hstep := AggregatorNode.receive_at_threshold gw hs
    { transactions := [] ++ pre, pendingDeposits := pd, pendingWithdraws := pw,
      accountsTrie := trie, calls := calls } x hthr
  simp only [List.nil_append, List.append_nil] at hfirst hall hstep
  obtain ⟨hframe_tx, extra, hframe_calls, hframe_count⟩ := AggregatorNode.Synced_frame gw hs
    { transactions := pre ++ [x], pendingDeposits := pd, pendingWithdraws := pw,
      accountsTrie := trie, calls := calls }
  rcases hS : AggregatorNode.Synced gw hs
    { transactions := pre ++ [x], pendingDeposits := pd, pendingWithdraws := pw,
      accountsTrie := trie, calls := calls } with ⟨⟨ok, e⟩, ag2⟩
  rw [hS] at hsync hpend hstep hframe_tx hframe_calls
  simp only [Prod.mk.injEq] at hsync
  obtain ⟨hok, he⟩ := hsync
  subst hok
  subst he
  simp only at hpend hstep hframe_tx hframe_calls
  obtain ⟨prev, hprev⟩ := hgw.1 ag2.calls
  obtain ⟨opts, hopts⟩ := hgw.2.2.2.1 (ag2.calls ++ [Call.GetStateRoot]) 0 2 2
  rcases hp : AggregatorNode.applyPending ag2 with ⟨e3, t3⟩
  rw [hp] at hpend
  simp only at hpend
  subst hpend
  have hsend := AggregatorNode.sendBatch_ok gw hs ag2 prev t3 opts hprev hp hopts
    (hgw.2.2.2.2 _ _ _)
  rw [hsend] at hstep
  simp only at hstep
  have hrun : AggregatorNode.receiveAll gw hs
      { transactions := pre, pendingDeposits := pd, pendingWithdraws := pw,
        accountsTrie := trie, calls := calls } [x] =
      ([AggregatorNode.Outcome.returned none],
       { ag2 with
         transactions := [], accountsTrie := t3,
         calls := ag2.calls ++ [Call.GetStateRoot] ++ [Call.PrepareTxOptions 0 2 2] ++
           [Call.NewBatch (Batch.SolidityFormat
             { PrevStateRoot := prev, StateRoot := hs.StateRoot t3,
               Transactions := ag2.transactions }) opts] }) := by
    simp only [AggregatorNode.receiveAll, hstep]
  rw [hrun] at hall
  refine ⟨?_, ?_, ?_, ?_, ?_⟩
  · rw [List.take_left' hprelen, hfirst]
    simp only [AggregatorNode.receiveAll, List.append_nil, hprelen]
  · rw [hall, hprelen]
    exact (List.replicate_succ' 501 _).symm
  · refine ⟨prev, opts, ?_⟩
    rw [hall, hframe_tx]
    simp
  · rw [hall]
    simp only [hframe_calls, List.countP_append, hframe_count, List.countP_cons,
      List.countP_nil, Call.isNewBatch]
    simp
  · rw [hall]

/-- C7 as amended, on an Aggregator whose trie holds the sender: the 502 transfers make one
`NewBatch` call. -/
theorem C7_threshold_commit_witness :
    List.countP Call.isNewBatch
      (AggregatorNode.receiveAll fundedContract sampleHasher fundedAggregator
        orphanTransfers).2.calls =
      List.countP Call.isNewBatch fundedAggregator.calls + 1 :=
  (C7_threshold_commit fundedContract sampleHasher fundedAggregator orphanTransfers rfl
    (by unfold orphanTransfers; rw [List.length_replicate]; rfl)
    ⟨fun _ => ⟨1002, rfl⟩, fun _ _ => ⟨true, rfl⟩,
      fun _ e he => absurd he (List.not_mem_nil e), fun _ _ _ _ => ⟨0, rfl⟩, fun _ _ _ => rfl⟩
    rfl
    (AggregatorNode.applyPending_ok_of_senders _ (by
      intro tx htx
      have hsame : (AggregatorNode.Synced fundedContract sampleHasher
          { fundedAggregator with transactions := orphanTransfers }).2.transactions =
          orphanTransfers := rfl
      rw [hsame] at htx
      rw [List.eq_of_mem_replicate htx]
      decide))).2.2.2.1

/-- C11 as stated fails: the nonce is a `uint64` and `fromAcc.Nonce++` wraps. For a sender
that holds 100 with nonce 2^64 - 1, the transfer of 30 to another address returns no error and
leaves the sender with nonce 0, which is not its nonce plus one. -/
theorem C11_counterexample :
    lastNonceTrie 1 = some { Balance := 100, Nonce := 2 ^ 64 - 1 } ∧
    (transfer 1 2 30).From ≠ (transfer 1 2 30).To ∧
    (0 : Int) ≤ (transfer 1 2 30).Value ∧
    resultTrie (AggregatorNode.maliciousProcessTx lastNonceTrie (transfer 1 2 30)) 1 =
      some { Balance := 70, Nonce := 0 } ∧
    resultTrie (AggregatorNode.maliciousProcessTx lastNonceTrie (transfer 1 2 30)) 1 ≠
      some { Balance := 70, Nonce := 2 ^ 64 - 1 + 1 } := by
  refine ⟨by decide, by decide, by decide, by decide, by decide⟩

/-- C11 as amended: for a transaction with a non-negative value whose sender has an account
and differs from the recipient, on a trie whose stored balances of sender and recipient are
not negative, `maliciousProcessTx` returns no error; the sender's nonce becomes its successor
modulo 2^64 (its successor whenever it is below 2^64 - 1); the recipient, taken as (0, 0) when
absent, is credited by the value and keeps its nonce; the sender is debited by the value when
its balance is at least the value and keeps its balance otherwise, so its balance is never
negative; no other account changes. On the trie with A = (100, 0) the transfer of 30 from A
to B gives A = (70, 1), B = (30, 0). -/
theorem C11_maliciousProcessTx_transfer :
    (∀ (t : OptimisticTrie) (tx : Transaction) (fromAcc : Account),
      t tx.From = some fromAcc → tx.From ≠ tx.To → 0 ≤ tx.Value →
      0 ≤ fromAcc.Balance → (∀ toAcc, t tx.To = some toAcc → 0 ≤ toAcc.Balance) →
      ∃ t1, AggregatorNode.maliciousProcessTx t tx = .ok t1 ∧
        t1 tx.From = some
          { Balance := if tx.Value ≤ fromAcc.Balance then fromAcc.Balance - tx.Value
                       else fromAcc.Balance,
            Nonce := (fromAcc.Nonce + 1) % 2 ^ 64 } ∧
        (fromAcc.Nonce + 1 < 2 ^ 64 →
          (t1 tx.From).map Account.Nonce = some (fromAcc.Nonce + 1)) ∧
        (0 ≤ fromAcc.Balance → ∀ acc, t1 tx.From = some acc → 0 ≤ acc.Balance) ∧
        t1 tx.To = some
          { Balance := ((t tx.To).getD { Balance := 0, Nonce := 0 }).Balance + tx.Value,
            Nonce := ((t tx.To).getD { Balance := 0, Nonce := 0 }).Nonce } ∧
        (∀ a, a ≠ tx.From → a ≠ tx.To → t1 a = t a)) ∧
    (resultTrie (AggregatorNode.maliciousProcessTx singleAccountTrie (transfer 1 2 30)) 1 =
        some { Balance := 70, Nonce := 1 } ∧
      resultTrie (AggregatorNode.maliciousProcessTx singleAccountTrie (transfer 1 2 30)) 2 =
        some { Balance := 30, Nonce := 0 }) := by
  refine ⟨?_, by decide, by decide⟩
  intro t tx fromAcc hfrom hne hval hfrom0 hto0
  have hbal : (if fromAcc.Balance < tx.Value then fromAcc.Balance + tx.Value
      else fromAcc.Balance) - tx.Value =
      if tx.Value ≤ fromAcc.Balance then fromAcc.Balance - tx.Value else fromAcc.Balance := by
    by_cases hlt : fromAcc.Balance < tx.Value
    · have hle : ¬ tx.Value ≤ fromAcc.Balance := not_le.2 hlt
      simp [hlt, hle]
    · have hle : tx.Value ≤ fromAcc.Balance := not_lt.1 hlt
      simp [hlt, hle]
  have hnonneg : 0 ≤ (if tx.Value ≤ fromAcc.Balance then fromAcc.Balance - tx.Value
      else fromAcc.Balance) := by
    by_cases hle : tx.Value ≤ fromAcc.Balance
    · simp only [hle, if_true]
      omega
    · simp only [hle, if_false]
      exact hfrom0
  unfold AggregatorNode.maliciousProcessTx GetAccount
  cases hto : t tx.To with
  | none =>
    simp only [hfrom, hto, hbal]
    rw [UpdateAccount_of_nonneg t tx.To 0 0 (le_refl 0),
      UpdateAccount_of_nonneg _ tx.From _ _ hnonneg,
      UpdateAccount_of_nonneg _ tx.To (0 + tx.Value) 0 (by omega)]
    refine ⟨_, rfl, ?_, ?_, ?_, ?_, ?_⟩
    · simp [Function.update_apply, hne]
    · intro hn
      simp [Function.update_apply, hne]
      exact hn
    · intro _ acc hacc
      simp only [Function.update_apply, hne, if_false, if_true, Option.some.injEq] at hacc
      rw [← hacc]
      exact hnonneg
    · simp [Function.update_apply]
    · intro a ha1 ha2
      simp [Function.update_apply, ha1, ha2]
  | some toAcc =>
    have hto1 : 0 ≤ toAcc.Balance := hto0 toAcc hto
    simp only [hfrom, hto, hbal]
    rw [UpdateAccount_of_nonneg _ tx.From _ _ hnonneg,
      UpdateAccount_of_nonneg _ tx.To (toAcc.Balance + tx.Value) toAcc.Nonce (by omega)]
    refine ⟨_, rfl, ?_, ?_, ?_, ?_, ?_⟩
    · simp [Function.update_apply, hne]
    · intro hn
      simp [Function.update_apply, hne]
      exact hn
    · intro _ acc hacc
      simp only [Function.update_apply, hne, if_false, if_true, Option.some.injEq] at hacc
      rw [← hacc]
      exact hnonneg
    · simp [Function.update_apply]
    · intro a ha1 ha2
      simp [Function.update_apply, ha1, ha2]

/-- C11 as amended, on the trie with A = (100, 0) and the transfer of 30 from A to B. -/
theorem C11_maliciousProcessTx_transfer_witness :
    ∃ t1, AggregatorNode.maliciousProcessTx singleAccountTrie (transfer 1 2 30) = .ok t1 ∧
      t1 (transfer 1 2 30).From = some
        { Balance := if (transfer 1 2 30).Value ≤ (100 : Int) then 100 - (transfer 1 2 30).Value
                     else 100,
          Nonce := (0 + 1) % 2 ^ 64 } ∧
      (0 + 1 < 2 ^ 64 → (t1 (transfer 1 2 30).From).map Account.Nonce = some (0 + 1)) ∧
      ((0 : Int) ≤ 100 → ∀ acc, t1 (transfer 1 2 30).From = some acc → 0 ≤ acc.Balance) ∧
      t1 (transfer 1 2 30).To = some
        { Balance := ((singleAccountTrie (transfer 1 2 30).To).getD
            { Balance := 0, Nonce := 0 }).Balance + (transfer 1 2 30).Value,
          Nonce := ((singleAccountTrie (transfer 1 2 30).To).getD
            { Balance := 0, Nonce := 0 }).Nonce } ∧
      (∀ a, a ≠ (transfer 1 2 30).From → a ≠ (transfer 1 2 30).To → t1 a = singleAccountTrie a) :=
  C11_maliciousProcessTx_transfer.1 singleAccountTrie (transfer 1 2 30)
    { Balance := 100, Nonce := 0 } (by decide) (by decide) (by decide) (by decide)
    (fun toAcc h => Option.noConfusion ((show singleAccountTrie 2 = none from rfl).symm.trans h))

/-- C12 on the code: a transfer of 30 from A to A, with A = (100, 0), leaves A = (130, 0)
through `maliciousProcessTx` and through `NewOptimisticTx`, and both return no error: the
write of the recipient side, taken from a second read of the same account, replaces the
write of the sender side, so the balance grows by the value and the nonce is not
incremented. -/
theorem C12_self_transfer_overwrites_sender :
    singleAccountTrie 1 = some { Balance := 100, Nonce := 0 } ∧
    resultTrie (AggregatorNode.maliciousProcessTx singleAccountTrie (transfer 1 1 30)) 1 =
      some { Balance := 130, Nonce := 0 } ∧
    (∀ hs : TrieHasher,
      (Oprollups.NewOptimisticTx hs singleAccountRollup 1 1 30 0).1 = none ∧
      (Oprollups.NewOptimisticTx hs singleAccountRollup 1 1 30 0).2.AccountsTrie 1 =
        some { Balance := 130, Nonce := 0 }) ∧
    (∀ (value : Int) (acc : Account), 0 ≤ value → value ≤ acc.Balance →
      resultTrie (AggregatorNode.maliciousProcessTx (UpdateAccount emptyTrie 1 acc)
        (transfer 1 1 value)) 1 = some { Balance := acc.Balance + value, Nonce := acc.Nonce }) := by
  refine ⟨by decide, by decide, fun hs => ⟨rfl, rfl⟩, ?_⟩
  intro value acc h0 hle
  have hlt : ¬ acc.Balance < value := not_lt.2 hle
  have hacc : UpdateAccount emptyTrie 1 acc = Function.update emptyTrie 1 (some acc) :=
    UpdateAccount_of_nonneg emptyTrie 1 acc.Balance acc.Nonce (by omega)
  rw [hacc]
  unfold AggregatorNode.maliciousProcessTx GetAccount
  simp only [transfer, Function.update_same, hlt, if_false]
  rw [UpdateAccount_of_nonneg _ 1 (acc.Balance - value) _ (by omega),
    UpdateAccount_of_nonneg _ 1 (acc.Balance + value) _ (by omega)]
  simp [resultTrie]

/-- C13: on a trie in which every stored balance is non-negative, `addFunds` and `removeFunds`
with any address and any non-negative value return no error and leave a trie in which every
stored balance is non-negative. On the trie with A = (10, 0), `addFunds(A, 5)` gives
A = (15, 0), `removeFunds(A, 4)` gives A = (6, 0), and `removeFunds(A, 50)`, whose result has
no encoding, leaves A = (10, 0). -/
theorem C13_funds_keep_balances_nonneg :
    (∀ (t : OptimisticTrie) (a : Address) (value : Int), balancesNonneg t → 0 ≤ value →
      (∃ t1, AggregatorNode.addFunds t a value = .ok t1 ∧ balancesNonneg t1) ∧
      (∃ t1, AggregatorNode.removeFunds t a value = .ok t1 ∧ balancesNonneg t1)) ∧
    (smallAccountTrie 1 = some { Balance := 10, Nonce := 0 } ∧
      resultTrie (AggregatorNode.addFunds smallAccountTrie 1 5) 1 =
        some { Balance := 15, Nonce := 0 } ∧
      resultTrie (AggregatorNode.removeFunds smallAccountTrie 1 4) 1 =
        some { Balance := 6, Nonce := 0 } ∧
      resultTrie (AggregatorNode.removeFunds smallAccountTrie 1 50) 1 =
        some { Balance := 10, Nonce := 0 } ∧
      resultTrie (AggregatorNode.addFunds smallAccountTrie 2 7) 2 =
        some { Balance := 7, Nonce := 0 }) := by
  refine ⟨?_, by decide, by decide, by decide, by decide, by decide⟩
  intro t a value ht _
  constructor
  · unfold AggregatorNode.addFunds GetAccount
    cases hta : t a with
    | none => exact ⟨_, rfl, UpdateAccount_balancesNonneg t a _ ht⟩
    | some old => exact ⟨_, rfl, UpdateAccount_balancesNonneg t a _ ht⟩
  · unfold AggregatorNode.removeFunds GetAccount
    cases hta : t a with
    | none => exact ⟨_, rfl, UpdateAccount_balancesNonneg t a _ ht⟩
    | some old => exact ⟨_, rfl, UpdateAccount_balancesNonneg t a _ ht⟩

/-- C13 on the trie with A = (10, 0), the address A and the value 4. -/
theorem C13_funds_keep_balances_nonneg_witness :
    balancesNonneg smallAccountTrie ∧ (0 : Int) ≤ 4 ∧
    (∃ t1, AggregatorNode.addFunds smallAccountTrie 1 4 = .ok t1 ∧ balancesNonneg t1) ∧
    (∃ t1, AggregatorNode.removeFunds smallAccountTrie 1 4 = .ok t1 ∧ balancesNonneg t1) :=
  ⟨UpdateAccount_balancesNonneg emptyTrie 1 _ (fun _ _ h => Option.noConfusion h),
    by decide,
    C13_funds_keep_balances_nonneg.1 smallAccountTrie 1 4
      (UpdateAccount_balancesNonneg emptyTrie 1 _ (fun _ _ h => Option.noConfusion h))
      (by decide)⟩

/-- C14 as stated fails: a stored balance is unsigned. On the trie with A = (10, 0),
`removeFunds(A, 50)` returns no error and leaves A = (10, 0), not (-40, 0); on the empty trie
`addFunds(A, -5)` and `removeFunds(A, -5)` return no error and write no account at A. -/
theorem C14_counterexample :
    smallAccountTrie 1 = some { Balance := 10, Nonce := 0 } ∧
    AggregatorNode.removeFunds smallAccountTrie 1 50 =
      .ok (resultTrie (AggregatorNode.removeFunds smallAccountTrie 1 50)) ∧
    resultTrie (AggregatorNode.removeFunds smallAccountTrie 1 50) 1 =
      some { Balance := 10, Nonce := 0 } ∧
    AggregatorNode.addFunds emptyTrie 1 (-5) =
      .ok (resultTrie (AggregatorNode.addFunds emptyTrie 1 (-5))) ∧
    resultTrie (AggregatorNode.addFunds emptyTrie 1 (-5)) 1 = none ∧
    AggregatorNode.removeFunds emptyTrie 1 (-5) =
      .ok (resultTrie (AggregatorNode.removeFunds emptyTrie 1 (-5))) ∧
    resultTrie (AggregatorNode.removeFunds emptyTrie 1 (-5)) 1 = none :=
  ⟨by decide, rfl, by decide, rfl, by decide, rfl, by decide⟩

/-- C14 as amended: for an address without account and a non-negative value, `addFunds` and
`removeFunds` both return no error and write the account (value, 0) there; for an address
with an account, `addFunds` adds the value to the balance when the sum is not negative,
`removeFunds` subtracts it when the difference is not negative, and the nonce is kept; for
every address and every value both return no error and the accounts at the other addresses
are unchanged. On the empty trie `removeFunds(A, 50)` creates A = (50, 0); on the trie with
A = (10, 0), `addFunds(A, 5)` gives A = (15, 0) and `removeFunds(A, 4)` gives A = (6, 0). -/
theorem C14_funds_on_missing_and_present :
    (∀ (t : OptimisticTrie) (a : Address) (value : Int), t a = none → 0 ≤ value →
      (∃ t1, AggregatorNode.addFunds t a value = .ok t1 ∧
        t1 a = some { Balance := value, Nonce := 0 } ∧ ∀ b, b ≠ a → t1 b = t b) ∧
      (∃ t1, AggregatorNode.removeFunds t a value = .ok t1 ∧
        t1 a = some { Balance := value, Nonce := 0 } ∧ ∀ b, b ≠ a → t1 b = t b)) ∧
    (∀ (t : OptimisticTrie) (a : Address) (value : Int) (acc : Account), t a = some acc →
      (0 ≤ acc.Balance + value →
        ∃ t1, AggregatorNode.addFunds t a value = .ok t1 ∧
          t1 a = some { Balance := acc.Balance + value, Nonce := acc.Nonce } ∧
          ∀ b, b ≠ a → t1 b = t b) ∧
      (0 ≤ acc.Balance - value →
        ∃ t1, AggregatorNode.removeFunds t a value = .ok t1 ∧
          t1 a = some { Balance := acc.Balance - value, Nonce := acc.Nonce } ∧
          ∀ b, b ≠ a → t1 b = t b)) ∧
    (∀ (t : OptimisticTrie) (a : Address) (value : Int),
      (∃ t1, AggregatorNode.addFunds t a value = .ok t1 ∧ ∀ b, b ≠ a → t1 b = t b) ∧
      (∃ t1, AggregatorNode.removeFunds t a value = .ok t1 ∧ ∀ b, b ≠ a → t1 b = t b)) ∧
    (resultTrie (AggregatorNode.removeFunds emptyTrie 1 50) 1 =
        some { Balance := 50, Nonce := 0 } ∧
      resultTrie (AggregatorNode.addFunds emptyTrie 1 50) 1 =
        some { Balance := 50, Nonce := 0 } ∧
      resultTrie (AggregatorNode.addFunds smallAccountTrie 1 5) 1 =
        some { Balance := 15, Nonce := 0 } ∧
      resultTrie (AggregatorNode.removeFunds smallAccountTrie 1 4) 1 =
        some { Balance := 6, Nonce := 0 }) := by
  refine ⟨?_, ?_, ?_, by decide, by decide, by decide, by decide⟩
  · intro t a value h hv
    constructor
    · refine ⟨Function.update t a (some { Balance := value, Nonce := 0 }), ?_, ?_, ?_⟩
      · simp only [AggregatorNode.addFunds, GetAccount, h]
        rw [UpdateAccount_of_nonneg t a value 0 hv]
      · simp
      · intro b hb
        simp [Function.update_apply, hb]
    · refine ⟨Function.update t a (some { Balance := value, Nonce := 0 }), ?_, ?_, ?_⟩
      · simp only [AggregatorNode.removeFunds, GetAccount, h]
        rw [UpdateAccount_of_nonneg t a value 0 hv]
      · simp
      · intro b hb
        simp [Function.update_apply, hb]
  · intro t a value acc h
    constructor
    · intro hv
      refine ⟨Function.update t a (some { Balance := acc.Balance + value, Nonce := acc.Nonce }),
        ?_, ?_, ?_⟩
      · simp only [AggregatorNode.addFunds, GetAccount, h]
        rw [UpdateAccount_of_nonneg t a (acc.Balance + value) acc.Nonce hv]
      · simp
      · intro b hb
        simp [Function.update_apply, hb]
    · intro hv
      refine ⟨Function.update t a (some { Balance := acc.Balance - value, Nonce := acc.Nonce }),
        ?_, ?_, ?_⟩
      · simp only [AggregatorNode.removeFunds, GetAccount, h]
        rw [UpdateAccount_of_nonneg t a (acc.Balance - value) acc.Nonce hv]
      · simp
      · intro b hb
        simp [Function.update_apply, hb]
  · intro t a value
    constructor
    · unfold AggregatorNode.addFunds GetAccount
      cases hta : t a with
      | none => exact ⟨_, rfl, fun b hb => UpdateAccount_other t a _ b hb⟩
      | some old => exact ⟨_, rfl, fun b hb => UpdateAccount_other t a _ b hb⟩
    · unfold AggregatorNode.removeFunds GetAccount
      cases hta : t a with
      | none => exact ⟨_, rfl, fun b hb => UpdateAccount_other t a _ b hb⟩
      | some old => exact ⟨_, rfl, fun b hb => UpdateAccount_other t a _ b hb⟩

/-- C14 as amended, at the address A = 1 of the empty trie and the value 50: `removeFunds`
creates the account (50, 0). -/
theorem C14_funds_on_missing_and_present_witness :
    emptyTrie 1 = none ∧ (0 : Int) ≤ 50 ∧
    ∃ t1, AggregatorNode.removeFunds emptyTrie 1 50 = .ok t1 ∧
      t1 1 = some { Balance := 50, Nonce := 0 } ∧ ∀ b, b ≠ 1 → t1 b = emptyTrie b :=
  ⟨rfl, by decide, (C14_funds_on_missing_and_present.1 emptyTrie 1 50 rfl (by decide)).2⟩

/-- C15 on the code: `sendBatch` never writes `pendingDeposits` or `pendingWithdraws`. On an
Aggregator with a pending deposit of 50 to A, a pending withdraw of 5 from A and one buffered
transfer of 10 from A to B, a first `sendBatch` succeeds and leaves A = (35, 1) with both
queues as they were; a second `sendBatch` right after it applies the same deposit and the
same withdraw again and leaves A = (80, 1). -/
theorem C15_sendBatch_keeps_queues :
    (∀ (gw : OptimisticSContract) (hs : TrieHasher) (ag : AggregatorNode),
      (AggregatorNode.sendBatch gw hs ag).2.pendingDeposits = ag.pendingDeposits ∧
      (AggregatorNode.sendBatch gw hs ag).2.pendingWithdraws = ag.pendingWithdraws) ∧
    (AggregatorNode.sendBatch (scriptedContract [] true 9) sampleHasher loadedAggregator).1 =
      none ∧
    (AggregatorNode.sendBatch (scriptedContract [] true 9) sampleHasher
      loadedAggregator).2.pendingDeposits = [{ From := 1, Value := 50 }] ∧
    (AggregatorNode.sendBatch (scriptedContract [] true 9) sampleHasher
      loadedAggregator).2.pendingWithdraws = [{ From := 1, Value := 5 }] ∧
    (AggregatorNode.sendBatch (scriptedContract [] true 9) sampleHasher
      loadedAggregator).2.accountsTrie 1 = some { Balance := 35, Nonce := 1 } ∧
    (AggregatorNode.sendBatch (scriptedContract [] true 9) sampleHasher
      (AggregatorNode.sendBatch (scriptedContract [] true 9) sampleHasher
        loadedAggregator).2).1 = none ∧
    (AggregatorNode.sendBatch (scriptedContract [] true 9) sampleHasher
      (AggregatorNode.sendBatch (scriptedContract [] true 9) sampleHasher
        loadedAggregator).2).2.accountsTrie 1 = some { Balance := 80, Nonce := 1 } := by
  refine ⟨?_, by decide, by decide, by decide, by decide, by decide, by decide⟩
  intro gw hs ag
  unfold AggregatorNode.sendBatch AggregatorNode.onChainStateRoot
  cases hg : gw.GetStateRoot ag.calls with
  | error e => exact ⟨rfl, rfl⟩
  | ok prev =>
    simp only
    rcases hp : AggregatorNode.applyPending
      { ag with calls := ag.calls ++ [Call.GetStateRoot] } with ⟨e, t3⟩
    cases e with
    | some err => exact ⟨rfl, rfl⟩
    | none =>
      simp only
      cases ho : gw.PrepareTxOptions (ag.calls ++ [Call.GetStateRoot]) 0 2 2 with
      | error e => exact ⟨rfl, rfl⟩
      | ok opts =>
        simp only
        cases hn : gw.NewBatch (ag.calls ++ [Call.GetStateRoot] ++ [Call.PrepareTxOptions 0 2 2])
          (Batch.SolidityFormat { PrevStateRoot := prev, StateRoot := hs.StateRoot t3,
                                  Transactions := ag.transactions }) opts with
        | error e => exact ⟨rfl, rfl⟩
        | ok u => exact ⟨rfl, rfl⟩

/-- C16 on the code: the pass replays the whole stream onto the trie the node already holds.
On a fresh node the stream Deposit(A,50), Deposit(B,20), Batch(A to B value 10) gives
A = (40, 1), B = (30, 0); a second pass of the same node over the same stream, with the same
answers of the contract, credits both deposits and replays the transfer again and gives
A = (80, 2), B = (60, 0), and with the sample hasher the returned root goes from 42 to 82. -/
theorem C16_second_pass_replays_everything :
    (∀ (hs : TrieHasher) (head : Hash),
      (AggregatorNode.computeAccountsTrie (scriptedContract precedenceStream true head) hs
        freshAggregator).2.accountsTrie 1 = some { Balance := 40, Nonce := 1 } ∧
      (AggregatorNode.computeAccountsTrie (scriptedContract precedenceStream true head) hs
        (AggregatorNode.computeAccountsTrie (scriptedContract precedenceStream true head) hs
          freshAggregator).2).2.accountsTrie 1 = some { Balance := 80, Nonce := 2 } ∧
      (AggregatorNode.computeAccountsTrie (scriptedContract precedenceStream true head) hs
        (AggregatorNode.computeAccountsTrie (scriptedContract precedenceStream true head) hs
          freshAggregator).2).2.accountsTrie 2 = some { Balance := 60, Nonce := 0 } ∧
      (ChallengerNode.computeAccountsTrie (scriptedContract precedenceStream true head) hs
        freshChallenger).2.accountsTrie 1 = some { Balance := 40, Nonce := 1 } ∧
      (ChallengerNode.computeAccountsTrie (scriptedContract precedenceStream true head) hs
        (ChallengerNode.computeAccountsTrie (scriptedContract precedenceStream true head) hs
          freshChallenger).2).2.accountsTrie 1 = some { Balance := 80, Nonce := 2 } ∧
      (ChallengerNode.computeAccountsTrie (scriptedContract precedenceStream true head) hs
        (ChallengerNode.computeAccountsTrie (scriptedContract precedenceStream true head) hs
          freshChallenger).2).2.accountsTrie 2 = some { Balance := 60, Nonce := 0 }) ∧
    (AggregatorNode.computeAccountsTrie (scriptedContract precedenceStream true 42) sampleHasher
      freshAggregator).1 = .ok (42, []) ∧
    (AggregatorNode.computeAccountsTrie (scriptedContract precedenceStream true 42) sampleHasher
      (AggregatorNode.computeAccountsTrie (scriptedContract precedenceStream true 42)
        sampleHasher freshAggregator).2).1 = .ok (82, []) ∧
    (ChallengerNode.computeAccountsTrie (scriptedContract precedenceStream true 42) sampleHasher
      freshChallenger).1 = .ok 42 ∧
    (ChallengerNode.computeAccountsTrie (scriptedContract precedenceStream true 42) sampleHasher
      (ChallengerNode.computeAccountsTrie (scriptedContract precedenceStream true 42)
        sampleHasher freshChallenger).2).1 = .ok 82 := by
  exact ⟨fun hs head => ⟨rfl, rfl, rfl, rfl, rfl, rfl⟩, rfl, rfl, rfl, rfl⟩

/-- The 502nd call on the fresh Aggregator when the sender of the buffered transfers has no
account: `Synced` answers true, `sendBatch` returns `AccountNotFound`, the buffer keeps its 502
transactions. -/
theorem AggregatorNode.orphan_threshold_call :
    AggregatorNode.ReceiveTransaction idleContract sampleHasher
      { freshAggregator with
        transactions := freshAggregator.transactions ++ List.replicate 501 (transfer 1 2 1) }
      (transfer 1 2 1) =
      (AggregatorNode.Outcome.returned (some (Err.AccountNotFound 1)),
       { freshAggregator with
         transactions := transfer 1 2 1 ::
           (List.replicate 500 (transfer 1 2 1) ++ [transfer 1 2 1]),
         calls := [Call.GetStateRoot] ++ [Call.GetStateRoot] }) := by
  have hhead : ([] : List Transaction) ++ List.replicate 501 (transfer 1 2 1) ++ [transfer 1 2 1]
      = transfer 1 2 1 :: (List.replicate 500 (transfer 1 2 1) ++ [transfer 1 2 1]) := rfl
  have hsync : ∀ txs : List Transaction,
      AggregatorNode.Synced idleContract sampleHasher { freshAggregator with transactions := txs }
        = ((true, none), { freshAggregator with transactions := txs,
                                                 calls := [Call.GetStateRoot] }) := by
    intro txs
    rfl
  have hpend : ∀ rest : List Transaction,
      AggregatorNode.applyPending
        { freshAggregator with transactions := transfer 1 2 1 :: rest,
                               calls := [Call.GetStateRoot] } =
        (some (Err.AccountNotFound 1), emptyTrie) := by
    intro rest
    rfl
  rw [AggregatorNode.receive_at_threshold _ _ _ _ (by
    show (List.replicate 501 (transfer 1 2 1)).length + 1 = 502
    rw [List.length_replicate])]
  show (match AggregatorNode.Synced idleContract sampleHasher
    { freshAggregator with
      transactions := [] ++ List.replicate 501 (transfer 1 2 1) ++ [transfer 1 2 1] } with
    | ((true, _), ag2) =>
      match AggregatorNode.sendBatch idleContract sampleHasher ag2 with
      | (some err, ag3) => (AggregatorNode.Outcome.returned (some err), ag3)
      | (none, ag3) => (AggregatorNode.Outcome.returned none, ag3)
    | ((false, err), ag2) => (AggregatorNode.Outcome.fatal err, ag2)) = _
  rw [hhead, hsync]
  simp only
  rw [AggregatorNode.sendBatch_pending_error idleContract sampleHasher _ 1 emptyTrie
    (Err.AccountNotFound 1) rfl (hpend _)]
  rfl

/-- C17 on the code: the commit is tried only when the buffer length equals
`MAX_TRANSACTIONS_BATCH`, and a failed `sendBatch` keeps the buffer. A call that finds 502
buffered transactions appends the 503rd and returns nil without any call on the contract. On
a fresh Aggregator in sync with a contract that accepts every call, 503 transfers from an
address without account end with 503 transactions in the buffer: the 502nd call returns
`AccountNotFound`, the 503rd returns nil. -/
theorem C17_buffer_exceeds_threshold :
    (∀ (gw : OptimisticSContract) (hs : TrieHasher) (ag : AggregatorNode) (tx : Transaction),
      ag.transactions.length = MAX_TRANSACTIONS_BATCH →
      AggregatorNode.ReceiveTransaction gw hs ag tx =
        (AggregatorNode.Outcome.returned none,
         { ag with transactions := ag.transactions ++ [tx] })) ∧
    freshAggregator.transactions = [] ∧
    (AggregatorNode.receiveAll idleContract sampleHasher freshAggregator
      (orphanTransfers ++ [transfer 1 2 1])).1 =
      List.replicate 501 (AggregatorNode.Outcome.returned none) ++
        [AggregatorNode.Outcome.returned (some (Err.AccountNotFound 1)),
         AggregatorNode.Outcome.returned none] ∧
    (AggregatorNode.receiveAll idleContract sampleHasher freshAggregator
      (orphanTransfers ++ [transfer 1 2 1])).2.transactions.length = 503 ∧
    MAX_TRANSACTIONS_BATCH <
      (AggregatorNode.receiveAll idleContract sampleHasher freshAggregator
        (orphanTransfers ++ [transfer 1 2 1])).2.transactions.length := by
  have hgen : ∀ (gw : OptimisticSContract) (hs : TrieHasher) (ag : AggregatorNode)
      (tx : Transaction), ag.transactions.length = MAX_TRANSACTIONS_BATCH →
      AggregatorNode.ReceiveTransaction gw hs ag tx =
        (AggregatorNode.Outcome.returned none,
         { ag with transactions := ag.transactions ++ [tx] }) := by
    intro gw hs ag tx hlen
    exact AggregatorNode.receive_below gw hs ag tx (by rw [hlen]; decide)
  have hsplit : orphanTransfers ++ [transfer 1 2 1] =
      List.replicate 501 (transfer 1 2 1) ++ [transfer 1 2 1, transfer 1 2 1] := by
    unfold orphanTransfers
    rw [List.replicate_succ' 501, List.append_assoc]
    rfl
  have hlt : freshAggregator.transactions.length +
      (List.replicate 501 (transfer 1 2 1)).length < MAX_TRANSACTIONS_BATCH := by
    rw [List.length_replicate]
    decide
  have hfull : (transfer 1 2 1 ::
      (List.replicate 500 (transfer 1 2 1) ++ [transfer 1 2 1])).length =
      MAX_TRANSACTIONS_BATCH := by
    simp only [List.length_cons, List.length_append, List.length_replicate,
      List.length_singleton]
    rfl
  have hrun : AggregatorNode.receiveAll idleContract sampleHasher
      { freshAggregator with
        transactions := freshAggregator.transactions ++ List.replicate 501 (transfer 1 2 1) }
      [transfer 1 2 1, transfer 1 2 1] =
      ([AggregatorNode.Outcome.returned (some (Err.AccountNotFound 1)),
        AggregatorNode.Outcome.returned none],
       { freshAggregator with
         transactions := (transfer 1 2 1 ::
           (List.replicate 500 (transfer 1 2 1) ++ [transfer 1 2 1])) ++ [transfer 1 2 1],
         calls := [Call.GetStateRoot] ++ [Call.GetStateRoot] }) := by
    rw [AggregatorNode.receiveAll, AggregatorNode.orphan_threshold_call]
    simp only
    rw [AggregatorNode.receiveAll, hgen _ _ _ _ hfull]
    simp only [AggregatorNode.receiveAll]
  have hlen503 : ((transfer 1 2 1 ::
      (List.replicate 500 (transfer 1 2 1) ++ [transfer 1 2 1])) ++ [transfer 1 2 1]).length =
      503 := by
    simp only [List.length_cons, List.length_append, List.length_replicate,
      List.length_singleton, List.length_nil]
  refine ⟨hgen, rfl, ?_, ?_, ?_⟩
  · rw [hsplit, AggregatorNode.receiveAll_below _ _ _ _ _ hlt, hrun, List.length_replicate]
  · rw [hsplit, AggregatorNode.receiveAll_below _ _ _ _ _ hlt, hrun]
    exact hlen503
  · rw [hsplit, AggregatorNode.receiveAll_below _ _ _ _ _ hlt, hrun]
    show MAX_TRANSACTIONS_BATCH < _
    rw [show ((transfer 1 2 1 ::
      (List.replicate 500 (transfer 1 2 1) ++ [transfer 1 2 1])) ++
        [transfer 1 2 1]).length = 503 from hlen503]
    decide

end Optimisticrp
